import Mathlib

/-!
Shallow embedding of the core utility logic of the `numeriq-addin` repository
(`src/src/utils/calculationFlow.ts`, `src/src/utils/formulaParser.ts` — which also
contains the `ExcelHelper` class — and `src/src/utils/comparisonHelper.ts`).

JavaScript strings are modelled as `List Char`; JavaScript `Map` objects as
insertion-ordered association lists with `Map.get`/`Map.set` semantics; code that
can `throw` returns `Option`/`Except` with `none`/`.error` standing for the thrown
exception.  JavaScript numbers appearing as cell values are modelled by `JSValue`
below (exact rationals plus explicit `NaN`/`Infinity`); integer index arithmetic,
which never approaches 2^53 in any reachable use, is modelled with `Nat`/`Int`.
-/

/-- A JavaScript string, modelled as its list of characters. -/
abbrev Str := List Char

/-- Characters of a Lean string literal, used to write concrete JS strings. -/
def chars (s : String) : Str := s.data

/-- JavaScript `\w` (word character): ASCII letter, digit or underscore. -/
def isWordChar (c : Char) : Bool :=
  ('A' ≤ c && c ≤ 'Z') || ('a' ≤ c && c ≤ 'z') || ('0' ≤ c && c ≤ '9') || c = '_'

/-- `[A-Z]` under the `i` (ignore-case) flag: any ASCII letter. -/
def isLetterAZi (c : Char) : Bool :=
  ('A' ≤ c && c ≤ 'Z') || ('a' ≤ c && c ≤ 'z')

/-- An uppercase ASCII letter `A`–`Z`. -/
def isUpperAZ (c : Char) : Bool := 'A' ≤ c && c ≤ 'Z'

/-- `\d`: an ASCII digit. -/
def isDigit09 (c : Char) : Bool := '0' ≤ c && c ≤ '9'

/-- JavaScript line terminators, which `.` does not match. -/
def isLineTerm (c : Char) : Bool :=
  c = '\n' || c = '\r' || c = Char.ofNat 0x2028 || c = Char.ofNat 0x2029

/-- Whitespace recognized by JavaScript `String.prototype.trim` (ASCII part;
the Unicode space characters never occur in the inputs modelled here). -/
def isJsSpace (c : Char) : Bool :=
  c = ' ' || c = '\t' || c = '\n' || c = '\r' || c = Char.ofNat 0x0B || c = Char.ofNat 0x0C

/-- JavaScript `String.prototype.trim`. -/
def jsTrim (l : Str) : Str :=
  ((l.dropWhile isJsSpace).reverse.dropWhile isJsSpace).reverse

/-- Split a run of characters satisfying `p` off the front (greedy `p*`). -/
def takeRun (p : Char → Bool) (l : Str) : Str × Str :=
  (l.takeWhile p, l.dropWhile p)

/-- Numeric value of a run of decimal digits (JS `parseInt(s, 10)` on an
all-digit string). -/
def digitsToNat (ds : Str) : Nat :=
  ds.foldl (fun n c => n * 10 + (c.toNat - 48)) 0

/-- Decimal rendering with an explicit recursion bound, so that the
definition is primitive-recursive and reduces inside the kernel.  The bound
only needs to exceed the number of digits. -/
def natToStringAux : Nat → Nat → Str
  | 0, _ => []
  | fuel + 1, n =>
    if n < 10 then [Char.ofNat (48 + n)]
    else natToStringAux fuel (n / 10) ++ [Char.ofNat (48 + n % 10)]

/-- Decimal rendering of a natural number, as produced by a JS template
literal `${n}` for a non-negative integer. -/
def natToString (n : Nat) : Str := natToStringAux (n + 1) n

/-!
### The cell-reference regular expression

`calculationFlow.ts` (`extractPrecedents`) and `comparisonHelper.ts`
(`normalizeFormula`) both use the global, ignore-case pattern

  `(\[.*?\])?(\w+!)?(\$?[A-Z]+\$?\d+(?::\$?[A-Z]+\$?\d+)?)`

The functions below implement its matching semantics directly: each quantifier
in the pattern is either deterministic after greedy matching (a greedy run of
letters cannot donate characters to a following digit run, and a greedy `\w+`
run cannot end before a `!`), or requires genuine backtracking, which is
implemented explicitly — the lazy `\[.*?\]` group tries successively longer
bodies, and each optional group falls back to absence when the remainder of
the pattern fails.
-/

/-- `\$?`: optionally consume a dollar sign. -/
def matchOptDollar (l : Str) : Str × Str :=
  match l with
  | '$' :: r => (['$'], r)
  | _ => ([], l)

/-- `\$?[A-Z]+\$?\d+` (ignore-case): one corner of a cell reference.
Returns the consumed text and the rest. -/
def matchCellCore (l : Str) : Option (Str × Str) :=
  let (d1, l1) := matchOptDollar l
  let (ls, l2) := takeRun isLetterAZi l1
  if ls.isEmpty then none
  else
    let (d2, l3) := matchOptDollar l2
    let (ds, l4) := takeRun isDigit09 l3
    if ds.isEmpty then none
    else some (d1 ++ ls ++ d2 ++ ds, l4)

/-- Group 3 of the pattern: a cell with an optional `:cell` range tail. -/
def matchG3 (l : Str) : Option (Str × Str) :=
  (matchCellCore l).map fun (c1, r1) =>
    match r1 with
    | ':' :: r2 =>
      match matchCellCore r2 with
      | some (c2, r3) => (c1 ++ ':' :: c2, r3)
      | none => (c1, r1)
    | _ => (c1, r1)

/-- Group 2 of the pattern, `(\w+!)?` attempted as present: a non-empty word
run followed by `!`.  A shorter-than-greedy word run can never be followed by
`!`, so no further backtracking inside the group is possible. -/
def matchG2 (l : Str) : Option (Str × Str) :=
  let (w, r) := takeRun isWordChar l
  if w.isEmpty then none
  else
    match r with
    | '!' :: r2 => some (w ++ ['!'], r2)
    | _ => none

/-- One match of the reference pattern: the three capture groups.
`g1`/`g2` are `none` when the optional group did not participate. -/
structure RefMatch where
  g1 : Option Str
  g2 : Option Str
  g3 : Str
deriving DecidableEq, Repr

/-- Groups 2 and 3 with the backtracking order of the regex engine: first try
`\w+!` followed by group 3; if group 3 then fails, retry without group 2. -/
def tryG2G3 (l : Str) : Option (RefMatch × Str) :=
  match matchG2 l with
  | some (g2c, r2) =>
    match matchG3 r2 with
    | some (g3c, r3) => some (⟨none, some g2c, g3c⟩, r3)
    | none => (matchG3 l).map fun (g3c, r3) => (⟨none, none, g3c⟩, r3)
  | none => (matchG3 l).map fun (g3c, r3) => (⟨none, none, g3c⟩, r3)

/-- Candidate bodies for the lazy `\[.*?\]` group, given the text after the
opening `[`: for every `]` whose preceding body characters all match `.`,
the body including that `]`, with the rest — in lazy (shortest-first) order. -/
def bracketCands : Str → List (Str × Str)
  | [] => []
  | c :: rest =>
    if isLineTerm c then []
    else if c = ']' then ([']'], rest) :: (bracketCands rest).map fun (b, r) => (c :: b, r)
    else (bracketCands rest).map fun (b, r) => (c :: b, r)

/-- Attempt to match the whole reference pattern starting exactly at the head
of `l`.  The optional group 1 is greedy: when `l` starts with `[`, each lazy
candidate for `\[.*?\]` is tried (with the rest of the pattern as
continuation) before falling back to matching without group 1. -/
def tryMatchAt (l : Str) : Option (RefMatch × Str) :=
  match l with
  | '[' :: r =>
    (bracketCands r).findSome? (fun (b, rest) =>
      (tryG2G3 rest).map fun (m, r3) => ({ m with g1 := some ('[' :: b) }, r3))
    <|> tryG2G3 l
  | _ => tryG2G3 l

/-- One step of a global (`g`-flag) scan: either a match starting at the
current position, or the current character passed through. -/
def refScan : Nat → Str → List (Char ⊕ RefMatch)
  | 0, _ => []
  | _ + 1, [] => []
  | fuel + 1, c :: rest =>
    match tryMatchAt (c :: rest) with
    | some (m, r) => Sum.inr m :: refScan fuel r
    | none => Sum.inl c :: refScan fuel rest

/-- Global scan of a string with the reference pattern.  Every successful
match consumes at least two characters and every failure advances one
character, so `l.length` steps of fuel always complete the scan. -/
def refScanAll (l : Str) : List (Char ⊕ RefMatch) :=
  refScan l.length l

namespace CalculationFlowAnalyzer

/-- `columnToNumber` of `calculationFlow.ts`: fold `num * 26 + (code - 64)`
over the column letters.  (Only letters, whose codes exceed 64, ever reach
this function through the address regex.) -/
def columnToNumber (column : Str) : Nat :=
  column.foldl (fun num c => num * 26 + (c.toNat - 64)) 0

/-- The `numberToColumn` loop with an explicit recursion bound (primitive
recursion, so the definition reduces inside the kernel; the counter shrinks
below the bound at every step). -/
def numberToColumnAux : Nat → Nat → Str
  | 0, _ => []
  | fuel + 1, num =>
    if num = 0 then []
    else numberToColumnAux fuel ((num - 1) / 26) ++ [Char.ofNat (65 + (num - 1) % 26)]

/-- `numberToColumn` of `calculationFlow.ts`: repeatedly prepend
`String.fromCharCode(65 + (num - 1) % 26)` while `num > 0`, with the counter
becoming `Math.floor((num - 1) / 26)`. -/
def numberToColumn (num : Nat) : Str := numberToColumnAux num num

/-- Row/column coordinates of a cell (1-based). -/
structure Coords where
  row : Nat
  col : Nat
deriving DecidableEq, Repr

/-- The unanchored search of `/([A-Z]+)(\d+)/i`: the first position at which
a (greedy, maximal) letter run is immediately followed by a digit run.  A
shorter letter run would end at a letter, which is not a digit, so greedy
matching with no backtracking is exact. -/
def lettersDigitsSearch : Str → Option (Str × Str)
  | [] => none
  | c :: rest =>
    (let (ls, r1) := takeRun isLetterAZi (c :: rest)
     if ls.isEmpty then none
     else
       let (ds, _) := takeRun isDigit09 r1
       if ds.isEmpty then none else some (ls, ds))
    <|> lettersDigitsSearch rest

/-- `addressToCoords`: match `/([A-Z]+)(\d+)/i` against the address and read
off the column (via `columnToNumber`) and the row (via `parseInt`).  `none`
models the thrown `Invalid cell address` error. -/
def addressToCoords (address : Str) : Option Coords :=
  (lettersDigitsSearch address).map fun (ls, ds) =>
    ⟨digitsToNat ds, columnToNumber ls⟩

/-- `getAddress`: `` `${numberToColumn(col)}${row}` ``. -/
def getAddress (row col : Nat) : Str :=
  numberToColumn col ++ natToString row

/-- `extractPrecedents` of `calculationFlow.ts`: run the global reference
pattern over the formula; for each match push `` `${sheet}!${address}` ``
where `sheet` is group 2 with its `!` removed when present (the `!` is its
last character) and the current sheet otherwise, and `address` is group 3
verbatim — including any `$` markers it contains. -/
def extractPrecedents (formula : Str) (currentSheet : Str) : List Str :=
  (refScanAll formula).filterMap fun
    | .inl _ => none
    | .inr m =>
      some ((match m.g2 with
             | some g2c => g2c.dropLast
             | none => currentSheet) ++ '!' :: m.g3)

/-- The value type of the dependency `Map`: `{ precedents, dependents, formula }`. -/
structure DepInfo where
  precedents : List Str
  dependents : List Str
  formula : Str
deriving DecidableEq, Repr

/-- A JavaScript `Map<string, DepInfo>`: an insertion-ordered association list
whose keys are unique. -/
abbrev DepMap := List (Str × DepInfo)

/-- `Map.get`: the value at the key, if present. -/
def mapGet (m : DepMap) (k : Str) : Option DepInfo :=
  (m.find? fun kv => kv.1 == k).map (·.2)

/-- `Map.set`: replace the value in place when the key is present (keeping its
position in the insertion order), else append a new entry. -/
def mapSet (m : DepMap) (k : Str) (v : DepInfo) : DepMap :=
  if m.any fun kv => kv.1 == k then
    m.map fun kv => if kv.1 == k then (k, v) else kv
  else m ++ [(k, v)]

/-- The data the host collaborator supplies for one scanned sheet: the sheet
name, the loaded range's `address` property (e.g. `"Sheet1!A1:C3"`), and its
`formulas` grid. -/
structure SheetData where
  name : Str
  rangeAddress : Str
  formulas : List (List Str)

/-- The scanning phase of `buildDependencyGraph` (lines 94–131): for each
sheet, parse the base address out of `range.address` (`.split('!')[1]`,
`.split(':')[0]`, `addressToCoords` — `.error` models the exception when the
address has no `!` part or no letters-digits match), then record every cell
whose formula starts with `=` under its fully-qualified address with its
extracted precedents, empty dependents, and its formula text. -/
def scanSheet (deps : DepMap) (sd : SheetData) : Except String DepMap :=
  match (sd.rangeAddress.splitOn '!').get? 1 with
  | none => .error "TypeError"
  | some afterSheet =>
    let baseAddress := (afterSheet.splitOn ':').headD []
    match addressToCoords baseAddress with
    | none => .error "Invalid cell address"
    | some base =>
      .ok <| sd.formulas.enum.foldl (fun acc (row, rowList) =>
        rowList.enum.foldl (fun acc2 (col, formula) =>
          if formula.head? = some '=' then
            let cellAddress := getAddress (base.row + row) (base.col + col)
            let fullAddress := sd.name ++ '!' :: cellAddress
            mapSet acc2 fullAddress
              ⟨extractPrecedents formula sd.name, [], formula⟩
          else acc2) acc) deps

/-- The scanning phase over all sheets in scope. -/
def scanPhase (sheets : List SheetData) : Except String DepMap :=
  sheets.foldlM scanSheet []

/-- The inner loop of the reverse pass (lines 134–148) for one entry: for each
of its precedents, push the entry's address onto the precedent's dependents,
creating the precedent's entry (empty precedents, empty formula) when absent. -/
def addDependentsFor (m : DepMap) (address : Str) (precedents : List Str) : DepMap :=
  precedents.foldl (fun acc precedent =>
    match mapGet acc precedent with
    | some info => mapSet acc precedent { info with dependents := info.dependents ++ [address] }
    | none => mapSet acc precedent ⟨[], [address], []⟩) m

/-- The reverse pass of `buildDependencyGraph`: `for (const [address, info] of
dependencies.entries())`, push `address` into each precedent's dependents.
The JavaScript iteration also visits the entries this very loop appends, but
those are created with an empty precedent list, so visiting them does
nothing; the fold over the entries present at the start of the pass is
therefore exact. -/
def buildDependents (m : DepMap) : DepMap :=
  (m.map fun kv => (kv.1, kv.2.precedents)).foldl
    (fun acc kp => addDependentsFor acc kp.1 kp.2) m

/-- `buildDependencyGraph`, with the host interaction replaced by the supplied
per-sheet formula grids: the scanning phase followed by the reverse pass. -/
def buildDependencyGraph (sheets : List SheetData) : Except String DepMap :=
  (scanPhase sheets).map buildDependents

/-- The `type` discriminant of an `AnalysisScope`. -/
inductive ScopeType where
  | workbook
  | worksheet
  | range
deriving DecidableEq, Repr

/-- `AnalysisScope` (the `focusArea` member is omitted: the claims under
verification only exercise the inputs/outputs analysis, which ignores it). -/
structure AnalysisScope where
  stype : ScopeType
  sheetName : Option Str := none
  rangeAddress : Option Str := none

/-- `isAddressInRange` (lines 382–396).  `cellAddress` is `Option`-valued
because the caller destructures `address.split('!')`, whose second component
is `undefined` when the address has no `!`; the result is `Option`-valued
because `addressToCoords` throws on an unparseable corner or cell (and
`undefined` cell addresses reach it only in the `:`-range branch, where the
member access on `undefined` likewise throws). -/
def isAddressInRange (cellAddress : Option Str) (rangeAddress : Str) : Option Bool :=
  if ¬ rangeAddress.contains ':' then
    some (cellAddress == some rangeAddress)
  else
    match rangeAddress.splitOn ':' with
    | start :: stop :: _ =>
      match addressToCoords start, addressToCoords stop with
      | some startCoords, some endCoords =>
        match cellAddress with
        | none => none
        | some ca =>
          match addressToCoords ca with
          | none => none
          | some cellCoords =>
            some (decide (cellCoords.row ≥ startCoords.row) &&
                  decide (cellCoords.row ≤ endCoords.row) &&
                  decide (cellCoords.col ≥ startCoords.col) &&
                  decide (cellCoords.col ≤ endCoords.col))
      | _, _ => none
    | _ => none

/-- `isInScope` (lines 343–360).  `some b` is a returned boolean, `none`
models a thrown exception (reachable only through `isAddressInRange`). -/
def isInScope (address : Str) (scope : AnalysisScope) : Option Bool :=
  let parts := address.splitOn '!'
  let sheetName := parts.headD []
  let cellAddress := parts.get? 1
  match scope.stype with
  | .workbook => some true
  | .worksheet => some (some sheetName == scope.sheetName)
  | .range =>
    if some sheetName == scope.sheetName then
      match scope.rangeAddress with
      | some ra => isAddressInRange cellAddress ra
      | none => none
    else some false

/-- `CellGroup`. -/
structure CellGroup where
  cells : List Str
  description : Str
  color : Str
deriving DecidableEq, Repr

/-- `FlowColors`. -/
structure FlowColors where
  inputs : Str
  calculations : Str
  outputs : Str
  orphans : Str
  inflows : Str
  outflows : Str
  outsidePrecedents : Str
  outsideDependents : Str

/-- The `defaultColors` palette. -/
def defaultColors : FlowColors where
  inputs := chars "#C6E0B4"
  calculations := chars "#FFE699"
  outputs := chars "#F4B084"
  orphans := chars "#E7E6E6"
  inflows := chars "#BDD7EE"
  outflows := chars "#F8CBAD"
  outsidePrecedents := chars "#D5A6BD"
  outsideDependents := chars "#B4C7E7"

/-- `FlowAnalysisResult` (restricted to the four groups the inputs/outputs
analysis populates). -/
structure FlowAnalysisResult where
  inputs : List CellGroup
  calculations : List CellGroup
  outputs : List CellGroup
  orphans : List CellGroup
deriving DecidableEq, Repr

/-- The filter applied to an entry's precedents and to its dependents:
`p => this.isInScope(p, scope) && dependencies.get(p)?.formula` — keep `p`
when it is in scope and maps to an entry with non-empty formula text.
`none` propagates a throw from `isInScope`. -/
def filterInScopeFormula (deps : DepMap) (scope : AnalysisScope) :
    List Str → Option (List Str)
  | [] => some []
  | p :: rest => do
    let b ← isInScope p scope
    let keep := b && (match mapGet deps p with
                      | some info => !info.formula.isEmpty
                      | none => false)
    let restF ← filterInScopeFormula deps scope rest
    some (if keep then p :: restF else restF)

/-- The classification loop of `analyzeInputsOutputs` (lines 166–190) over the
map's entries, producing the `(inputs, calculations, outputs, orphans)`
address lists in iteration order. -/
def classifyEntries (deps : DepMap) (scope : AnalysisScope) :
    List (Str × DepInfo) → Option (List Str × List Str × List Str × List Str)
  | [] => some ([], [], [], [])
  | (address, info) :: rest =>
    if info.formula.isEmpty then classifyEntries deps scope rest
    else do
      let inScopePrecedents ← filterInScopeFormula deps scope info.precedents
      let inScopeDependents ← filterInScopeFormula deps scope info.dependents
      let (ins, cals, outs, orns) ← classifyEntries deps scope rest
      let hasPrecedents := !inScopePrecedents.isEmpty
      let hasDependents := !inScopeDependents.isEmpty
      if !hasPrecedents && !hasDependents then
        some (ins, cals, outs, address :: orns)
      else if !hasPrecedents && hasDependents then
        some (address :: ins, cals, outs, orns)
      else if hasPrecedents && !hasDependents then
        some (ins, cals, address :: outs, orns)
      else
        some (ins, address :: cals, outs, orns)

/-- `analyzeInputsOutputs` (lines 156–198): classify every formula-bearing
entry and wrap the four address lists in their labelled, coloured groups. -/
def analyzeInputsOutputs (deps : DepMap) (scope : AnalysisScope)
    (colors : FlowColors) : Option FlowAnalysisResult :=
  (classifyEntries deps scope deps).map fun (ins, cals, outs, orns) =>
    { inputs := [⟨ins, chars "Inputs", colors.inputs⟩]
      calculations := [⟨cals, chars "Calculations", colors.calculations⟩]
      outputs := [⟨outs, chars "Outputs", colors.outputs⟩]
      orphans := [⟨orns, chars "Orphan Formulas", colors.orphans⟩] }

end CalculationFlowAnalyzer

/-!
### Cell values

`comparisonHelper.ts` compares cells by formula text or by computed value; the
values handed over by the host are JavaScript `any` (numbers, strings,
booleans, `null`, or `undefined` for cells outside the grid).  Numbers are
modelled as exact rationals together with explicit `NaN` and signed-infinity
values, so that the strict-equality and tolerance branches keep their
JavaScript semantics (`NaN === NaN` is false, `NaN > ε` is false, …).
-/

/-- A JavaScript value as it appears in a value grid or argument list. -/
inductive JSValue where
  | num (q : ℚ)
  | nan
  | inf (pos : Bool)
  | str (s : Str)
  | bool (b : Bool)
  | null
  | undef
deriving DecidableEq, Repr

/-- JavaScript `===`.  Values of different types are never strictly equal,
`NaN === NaN` is false (it falls through to the catch-all). -/
def jsStrictEq : JSValue → JSValue → Bool
  | .num a, .num b => a == b
  | .inf a, .inf b => a == b
  | .str a, .str b => a == b
  | .bool a, .bool b => a == b
  | .null, .null => true
  | .undef, .undef => true
  | _, _ => false

/-- `typeof v === 'number'`. -/
def typeofNumber : JSValue → Bool
  | .num _ | .nan | .inf _ => true
  | _ => false

/-- `v == null` (loose equality): true exactly for `null` and `undefined`. -/
def isNullish : JSValue → Bool
  | .null | .undef => true
  | _ => false

/-- `Math.abs(a - b) > 1e-10` for two values of type number: comparisons with
`NaN` are false, `∞ - ∞` is `NaN`, any finite-infinite difference is `∞`. -/
def numAbsDiffGtTol : JSValue → JSValue → Bool
  | .nan, _ => false
  | _, .nan => false
  | .num a, .num b => |a - b| > (1 : ℚ) / 10 ^ 10
  | .inf a, .inf b => a != b
  | .inf _, _ => true
  | _, .inf _ => true
  | _, _ => false

/-- JavaScript `String(v)`.  The rational case approximates JS float
formatting (exact for integers; no claim's truth depends on the non-integer
rendering, which is reached only when comparing a number against a value of a
different type). -/
def jsToString : JSValue → Str
  | .str s => s
  | .bool true => chars "true"
  | .bool false => chars "false"
  | .null => chars "null"
  | .undef => chars "undefined"
  | .nan => chars "NaN"
  | .inf true => chars "Infinity"
  | .inf false => chars "-Infinity"
  | .num q =>
    (if q.num < 0 then ['-'] else []) ++ natToString q.num.natAbs ++
    (if q.den = 1 then [] else '/' :: natToString q.den)

namespace ComparisonHelper

/-- `ComparisonOptions`. -/
structure ComparisonOptions where
  compareFormulas : Bool
  ignoreInputs : Bool
  detectAlignment : Bool
deriving DecidableEq, Repr

/-- `CellDifference`. -/
structure CellDifference where
  address : Str
  formula : Str
  value : JSValue
  isDifferent : Bool
deriving DecidableEq, Repr

/-- `DifferenceBlock`. -/
structure DifferenceBlock where
  startRow : Nat
  startCol : Nat
  endRow : Nat
  endCol : Nat
  referenceCells : List CellDifference
  comparatorCells : List CellDifference
deriving DecidableEq, Repr

/-- `ComparisonResult`. -/
structure ComparisonResult where
  differences : List DifferenceBlock
  totalDifferences : Nat
  alignmentNeeded : Bool
  insertedRows : List Nat
  insertedColumns : List Nat
deriving DecidableEq, Repr

/-- `normalizeFormula` (lines 170–178): return non-formula text unchanged;
otherwise replace every match of the reference pattern with `REF`. -/
def normalizeFormula (formula : Str) : Str :=
  if formula.isEmpty || formula.head? != some '=' then formula
  else (refScanAll formula).foldr (fun piece acc =>
    match piece with
    | .inl c => c :: acc
    | .inr _ => chars "REF" ++ acc) []

/-- `areFormulasDifferent` (lines 151–165). -/
def areFormulasDifferent (formula1 formula2 : Str) (ignoreInputs : Bool) : Bool :=
  if !ignoreInputs then formula1 != formula2
  else normalizeFormula formula1 != normalizeFormula formula2

/-- `areValuesDifferent` (lines 183–199). -/
def areValuesDifferent (value1 value2 : JSValue) : Bool :=
  if jsStrictEq value1 value2 then false
  else if typeofNumber value1 && typeofNumber value2 then
    numAbsDiffGtTol value1 value2
  else if (isNullish value1 && !isNullish value2) ||
          (!isNullish value1 && isNullish value2) then true
  else jsToString value1 != jsToString value2

/-- `isAdjacent` (lines 204–211).  The block bounds are cast to `Int` for the
`- 1` comparisons, which in JavaScript may produce `-1`. -/
def isAdjacent (block : DifferenceBlock) (row col : Nat) : Bool :=
  decide ((row : Int) ≥ (block.startRow : Int) - 1) &&
  decide ((row : Int) ≤ (block.endRow : Int) + 1) &&
  decide ((col : Int) ≥ (block.startCol : Int) - 1) &&
  decide ((col : Int) ≤ (block.endCol : Int) + 1)

/-- `numberToColumn` of `comparisonHelper.ts` (identical to the one in
`calculationFlow.ts`). -/
def numberToColumn (num : Nat) : Str :=
  CalculationFlowAnalyzer.numberToColumn num

/-- `getAddress` of `comparisonHelper.ts`: 0-based indices to an `A1`-style
address. -/
def getAddress (row col : Nat) : Str :=
  numberToColumn (col + 1) ++ natToString (row + 1)

/-- The mutable state of the `compareRanges` scan. -/
structure ScanState where
  differences : List DifferenceBlock
  currentBlock : Option DifferenceBlock
  totalDifferences : Nat

/-- `grid[row]?.[col]` for the formula grids, with `|| ''` defaulting. -/
def formulaAt (grid : List (List Str)) (row col : Nat) : Str :=
  ((grid.get? row).bind fun r => r.get? col).getD []

/-- `grid[row]?.[col]` for the value grids (`undefined` when missing). -/
def valueAt (grid : List (List JSValue)) (row col : Nat) : JSValue :=
  ((grid.get? row).bind fun r => r.get? col).getD (.undef)

/-- The body of the `compareRanges` double loop (lines 88–131) for one cell. -/
def cellStep (refFormulas : List (List Str)) (refValues : List (List JSValue))
    (compFormulas : List (List Str)) (compValues : List (List JSValue))
    (options : ComparisonOptions) (st : ScanState) (row col : Nat) : ScanState :=
  let refFormula := formulaAt refFormulas row col
  let refValue := valueAt refValues row col
  let compFormula := formulaAt compFormulas row col
  let compValue := valueAt compValues row col
  let isDifferent :=
    if options.compareFormulas then
      areFormulasDifferent refFormula compFormula options.ignoreInputs
    else areValuesDifferent refValue compValue
  if isDifferent then
    let (differences, block) :=
      match st.currentBlock with
      | some b =>
        if isAdjacent b row col then (st.differences, b)
        else (st.differences ++ [b],
              ⟨row, col, row, col, [], []⟩)
      | none => (st.differences, ⟨row, col, row, col, [], []⟩)
    let block := { block with
      endRow := max block.endRow row
      endCol := max block.endCol col
      referenceCells := block.referenceCells ++
        [⟨getAddress row col, refFormula, refValue, true⟩]
      comparatorCells := block.comparatorCells ++
        [⟨getAddress row col, compFormula, compValue, true⟩] }
    ⟨differences, some block, st.totalDifferences + 1⟩
  else st

/-- `compareRanges` (lines 68–146): row-major scan over the union bounding
box, then flush the open block and assemble the result. -/
def compareRanges (refFormulas : List (List Str)) (refValues : List (List JSValue))
    (compFormulas : List (List Str)) (compValues : List (List JSValue))
    (options : ComparisonOptions) : ComparisonResult :=
  let maxRows := max refFormulas.length compFormulas.length
  let maxCols := max ((refFormulas.head?.map List.length).getD 0)
                     ((compFormulas.head?.map List.length).getD 0)
  let final := (List.range maxRows).foldl (fun st row =>
    (List.range maxCols).foldl (fun st2 col =>
      cellStep refFormulas refValues compFormulas compValues options st2 row col)
      st) ⟨[], none, 0⟩
  let differences :=
    match final.currentBlock with
    | some b => final.differences ++ [b]
    | none => final.differences
  { differences := differences
    totalDifferences := final.totalDifferences
    alignmentNeeded := false
    insertedRows := []
    insertedColumns := [] }

end ComparisonHelper

namespace FormulaParser

/-- The `type` discriminant of a `FormulaNode`. -/
inductive NodeType where
  | function
  | reference
  | operator
  | literal
  | array
deriving DecidableEq, Repr

/-- `FormulaNode`: `{ type, value, children?, address?, isActive? }` (the
`calculatedValue` and `targetLocation` members, untouched by the modelled
functions, are omitted; an absent `children` array and an empty one behave
identically in every modelled use). -/
inductive FormulaNode where
  | mk (ntype : NodeType) (value : Str) (children : List FormulaNode)
       (address : Option Str) (isActive : Option Bool)
deriving Repr

/-- The `type` field. -/
def FormulaNode.ntype : FormulaNode → NodeType
  | .mk t _ _ _ _ => t

/-- The `value` field. -/
def FormulaNode.value : FormulaNode → Str
  | .mk _ v _ _ _ => v

/-- The `children` field. -/
def FormulaNode.children : FormulaNode → List FormulaNode
  | .mk _ _ c _ _ => c

/-- The `address` field. -/
def FormulaNode.address : FormulaNode → Option Str
  | .mk _ _ _ a _ => a

/-- The `isActive` field. -/
def FormulaNode.isActive : FormulaNode → Option Bool
  | .mk _ _ _ _ act => act

/-- Set the `isActive` field. -/
def FormulaNode.withActive : FormulaNode → Bool → FormulaNode
  | .mk t v c a _, b => .mk t v c a (some b)

/-- Replace the `children` field. -/
def FormulaNode.withChildren : FormulaNode → List FormulaNode → FormulaNode
  | .mk t v _ a act, c => .mk t v c a act

/-- First character of the identifier in `/^([A-Z_][A-Z0-9_.]*)\s*\(/i`. -/
def isIdentStart (c : Char) : Bool := isLetterAZi c || c = '_'

/-- Continuation characters of that identifier. -/
def isIdentChar (c : Char) : Bool := isLetterAZi c || isDigit09 c || c = '_' || c = '.'

/-- The function-call head match `/^([A-Z_][A-Z0-9_.]*)\s*\(/i`: the
identifier (greedy, and no shorter run can reach the `(`, so deterministic),
optional whitespace, and the opening parenthesis.  Returns the captured name
and the text after the `(`. -/
def funcMatchHead (l : Str) : Option (Str × Str) :=
  match l with
  | [] => none
  | c :: r =>
    if isIdentStart c then
      let (idRest, r1) := takeRun isIdentChar r
      let (_, r2) := takeRun isJsSpace r1
      match r2 with
      | '(' :: r3 => some (c :: idRest, r3)
      | _ => none
    else none

/-- `findMatchingParen` (lines 100–128), reformulated on the text following
the opening parenthesis: the characters strictly between the `(` and its
matching `)` — or the whole remaining text when no match exists, modelling
the `return str.length` fallback.  `depth` starts at 1; quoted strings are
skipped, a quote closing only when not preceded by a backslash. -/
def matchingParenInside : Str → Int → Bool → Option Char → Char → Str
  | [], _, _, _, _ => []
  | c :: rest, depth, inString, stringChar, prev =>
    if inString then
      if some c = stringChar && prev != '\\' then
        c :: matchingParenInside rest depth false stringChar c
      else c :: matchingParenInside rest depth true stringChar c
    else if c = '"' || c = '\'' then
      c :: matchingParenInside rest depth true (some c) c
    else if c = '(' then
      c :: matchingParenInside rest (depth + 1) false stringChar c
    else if c = ')' then
      if depth = 1 then []
      else c :: matchingParenInside rest (depth - 1) false stringChar c
    else c :: matchingParenInside rest depth false stringChar c

/-- `splitArguments` (lines 130–170): split the argument text on top-level
commas (parenthesis/brace depth zero, outside quoted strings); every comma
pushes the trimmed current argument, and a final non-empty trimmed remainder
is pushed at the end. -/
def splitArgumentsAux : Str → Str → Int → Bool → Option Char → Option Char → List Str
  | [], currentArg, _, _, _, _ =>
    if (jsTrim currentArg).isEmpty then [] else [jsTrim currentArg]
  | c :: rest, currentArg, depth, inString, stringChar, prev =>
    if inString then
      if some c = stringChar && prev != some '\\' then
        splitArgumentsAux rest (currentArg ++ [c]) depth false stringChar (some c)
      else splitArgumentsAux rest (currentArg ++ [c]) depth true stringChar (some c)
    else if c = '"' || c = '\'' then
      splitArgumentsAux rest (currentArg ++ [c]) depth true (some c) (some c)
    else if c = '(' || c = '{' then
      splitArgumentsAux rest (currentArg ++ [c]) (depth + 1) false stringChar (some c)
    else if c = ')' || c = '}' then
      splitArgumentsAux rest (currentArg ++ [c]) (depth - 1) false stringChar (some c)
    else if c = ',' && depth = 0 then
      jsTrim currentArg :: splitArgumentsAux rest [] depth false stringChar (some c)
    else splitArgumentsAux rest (currentArg ++ [c]) depth false stringChar (some c)

/-- `splitArguments` with its initial state. -/
def splitArguments (argsString : Str) : List Str :=
  splitArgumentsAux argsString [] 0 false none none

/-- `\$?[A-Z]+:\$?[A-Z]+` (a full-column range). -/
def matchColRange (l : Str) : Option (Str × Str) :=
  let (d1, l1) := matchOptDollar l
  let (ls, l2) := takeRun isLetterAZi l1
  if ls.isEmpty then none
  else match l2 with
    | ':' :: l3 =>
      let (d2, l4) := matchOptDollar l3
      let (ls2, l5) := takeRun isLetterAZi l4
      if ls2.isEmpty then none
      else some (d1 ++ ls ++ ':' :: (d2 ++ ls2), l5)
    | _ => none

/-- `\$?\d+:\$?\d+` (a full-row range). -/
def matchRowRange (l : Str) : Option (Str × Str) :=
  let (d1, l1) := matchOptDollar l
  let (ds, l2) := takeRun isDigit09 l1
  if ds.isEmpty then none
  else match l2 with
    | ':' :: l3 =>
      let (d2, l4) := matchOptDollar l3
      let (ds2, l5) := takeRun isDigit09 l4
      if ds2.isEmpty then none
      else some (d1 ++ ds ++ ':' :: (d2 ++ ds2), l5)
    | _ => none

/-- `\$?[A-Z]+\$?\d+:\$?[A-Z]+\$?\d+` (a cell range). -/
def matchCellRange (l : Str) : Option (Str × Str) :=
  match matchCellCore l with
  | some (c1, r1) =>
    match r1 with
    | ':' :: r2 => (matchCellCore r2).map fun (c2, r3) => (c1 ++ ':' :: c2, r3)
    | _ => none
  | none => none

/-- `isCellReference` (lines 214–218): test the trimmed expression against
the anchored pattern
`/^(\[.*?\])?(\w+!)?(cell|col-range|row-range|cell-range)$/i`.
With the trailing anchor, the boolean test succeeds exactly when some choice
of optional bracket group, optional sheet group and alternative consumes the
whole string; all backtracking alternatives are enumerated. -/
def isCellReference (expr : Str) : Bool :=
  let t := jsTrim expr
  let starts : List Str :=
    match t with
    | '[' :: r => (bracketCands r).map (·.2) ++ [t]
    | _ => [t]
  starts.any fun s1 =>
    let afterSheet : List Str :=
      match matchG2 s1 with
      | some (_, r) => [r, s1]
      | none => [s1]
    afterSheet.any fun s2 =>
      [matchCellCore s2, matchColRange s2, matchRowRange s2, matchCellRange s2].any fun alt =>
        match alt with
        | some (_, rest) => rest.isEmpty
        | none => false

/-- A hexadecimal digit. -/
def isHexDigit (c : Char) : Bool :=
  isDigit09 c || ('a' ≤ c && c ≤ 'f') || ('A' ≤ c && c ≤ 'F')

/-- An octal digit. -/
def isOctDigit (c : Char) : Bool := '0' ≤ c && c ≤ '7'

/-- A binary digit. -/
def isBinDigit (c : Char) : Bool := c = '0' || c = '1'

/-- Consume an optional exponent part `[eE][+-]?\d+`; a malformed exponent is
not consumed (the number then ends before the `e`). -/
def dropExpPart (l : Str) : Str :=
  match l with
  | c :: r1 =>
    if c = 'e' || c = 'E' then
      let r2 := match r1 with
                | s :: r' => if s = '+' || s = '-' then r' else r1
                | [] => r1
      let (ds, r3) := takeRun isDigit09 r2
      if ds.isEmpty then l else r3
    else l
  | [] => l

/-- The unsigned decimal forms of a JS numeric string: `digits [. digits]
[exp]` or `. digits [exp]`.  Returns the unconsumed rest. -/
def dropDecimalForm (l : Str) : Option Str :=
  let (ip, r1) := takeRun isDigit09 l
  if !ip.isEmpty then
    let r2 := match r1 with
              | '.' :: r' => (takeRun isDigit09 r').2
              | _ => r1
    some (dropExpPart r2)
  else
    match l with
    | '.' :: r' =>
      let (fp, r2) := takeRun isDigit09 r'
      if fp.isEmpty then none else some (dropExpPart r2)
    | _ => none

/-- `!isNaN(Number(expr))`: the string-to-number conversion trims whitespace,
maps the empty string to `0`, and otherwise accepts an optionally signed
decimal or `Infinity`, or an unsigned `0x`/`0o`/`0b` radix literal. -/
def jsIsNumeric (s : Str) : Bool :=
  let t := jsTrim s
  if t.isEmpty then true
  else
    let radix : Option Bool :=
      match t with
      | '0' :: c :: r =>
        if c = 'x' || c = 'X' then some (!r.isEmpty && r.all isHexDigit)
        else if c = 'o' || c = 'O' then some (!r.isEmpty && r.all isOctDigit)
        else if c = 'b' || c = 'B' then some (!r.isEmpty && r.all isBinDigit)
        else none
      | _ => none
    match radix with
    | some b => b
    | none =>
      let t1 := match t with
                | s :: r => if s = '+' || s = '-' then r else t
                | [] => t
      if t1 = chars "Infinity" then true
      else match dropDecimalForm t1 with
           | some rest => rest.isEmpty
           | none => false

/-- `isLiteral` (lines 220–240): a numeric string, a quoted string (first and
last character both `"` or both `'`), or a boolean literal. -/
def isLiteral (expr : Str) : Bool :=
  let t := jsTrim expr
  if jsIsNumeric t then true
  else if (t.head? = some '"' && t.getLast? = some '"') ||
          (t.head? = some '\'' && t.getLast? = some '\'') then true
  else
    let u := t.map Char.toUpper
    u = chars "TRUE" || u = chars "FALSE"

/-- One position of the right-to-left operator scan in
`findTopLevelOperator` (lines 185–207): returns the found index (if any) and
the updated string/paren state.  `expr[i - 1] !== '\\'` guards the closing
quote; a two-character operator is recognized when `expr.substring(i-1, i+1)`
equals it, reporting index `i - 1`. -/
def scanOpStep (expr op : Str) (i : Nat) (inString : Bool) (stringChar : Option Char)
    (depth : Int) : Option Nat × Bool × Option Char × Int :=
  let char := expr.getD i ' '
  if inString then
    if some char = stringChar && (i = 0 || expr.getD (i - 1) ' ' != '\\') then
      (none, false, stringChar, depth)
    else (none, true, stringChar, depth)
  else if char = '"' || char = '\'' then (none, true, some char, depth)
  else if char = ')' then (none, false, stringChar, depth + 1)
  else if char = '(' then (none, false, stringChar, depth - 1)
  else if depth = 0 then
    if op.length = 2 && decide (0 < i) && [expr.getD (i - 1) ' ', char] = op then
      (some (i - 1), false, stringChar, depth)
    else if op.length = 1 && [char] = op then
      (some i, false, stringChar, depth)
    else (none, false, stringChar, depth)
  else (none, false, stringChar, depth)

/-- The right-to-left scan from index `i` down to 0 for one operator. -/
def scanOpAux (expr op : Str) : Nat → Bool → Option Char → Int → Option Nat
  | 0, inString, stringChar, depth => (scanOpStep expr op 0 inString stringChar depth).1
  | i + 1, inString, stringChar, depth =>
    match scanOpStep expr op (i + 1) inString stringChar depth with
    | (some r, _, _, _) => some r
    | (none, s, c, d) => scanOpAux expr op i s c d

/-- The scan for one operator over the whole expression, starting at the last
index with fresh string/paren state. -/
def scanOp (expr op : Str) : Option Nat :=
  match expr.length with
  | 0 => none
  | n + 1 => scanOpAux expr op n false none 0

/-- The `precedenceOrder` array of `findTopLevelOperator`, in source order. -/
def precedenceOrder : List Str :=
  [chars "=", chars "<>", chars "<=", chars ">=", chars "<", chars ">",
   chars "&", chars "+", chars "-", chars "*", chars "/", chars "^"]

/-- `findTopLevelOperator`: try each operator of `precedenceOrder` in turn,
each with its own full right-to-left scan; the first operator whose scan hits
wins, at the index its scan reports. -/
def findTopLevelOperator (expr : Str) : Option (Str × Nat) :=
  precedenceOrder.findSome? fun op => (scanOp expr op).map fun i => (op, i)

/-- The body of `parseFunction` (lines 77–98), parameterized by the
recursive `this.parseExpression` call: re-match the function head (the
`throw` on failure is modelled by `.error`), take the argument text up to the
matching closing parenthesis, split it on top-level commas, and parse each
argument as a child of a function node named by the uppercased identifier. -/
def parseFunctionBody (parseExpression : Str → Except String FormulaNode)
    (expr : Str) : Except String FormulaNode :=
  match funcMatchHead expr with
  | none => .error "Invalid function expression"
  | some (name, afterParen) =>
    let argsString := matchingParenInside afterParen 1 false none '('
    let args := splitArguments argsString
    match args.mapM parseExpression with
    | .error e => .error e
    | .ok children => .ok (.mk .function (name.map Char.toUpper) children none none)

/-- The body of `parseExpression` (lines 31–75), parameterized by the
recursive call used for sub-expressions. -/
def parseExpressionBody (recur : Str → Except String FormulaNode)
    (expr : Str) : Except String FormulaNode :=
  let t := jsTrim expr
  if (funcMatchHead t).isSome then parseFunctionBody recur t
  else if isCellReference t then .ok (.mk .reference t [] (some t) none)
  else if isLiteral t then .ok (.mk .literal t [] none none)
  else
    match findTopLevelOperator t with
    | some (op, i) =>
      match recur (t.take i) with
      | .error e => .error e
      | .ok lhs =>
        match recur (t.drop (i + op.length)) with
        | .error e => .error e
        | .ok rhs => .ok (.mk .operator op [lhs, rhs] none none)
    | none => .ok (.mk .literal t [] none none)

/-- `parseExpression`, with an explicit recursion-depth fuel by primitive
recursion (so the definition reduces inside the kernel): every recursive call
is on a strictly shorter string, so any fuel exceeding the expression length
is enough (`parse_isOk` below); the exhaustion branch is unreachable from
`parse`. -/
def parseExpressionF (fuel : Nat) : Str → Except String FormulaNode :=
  Nat.rec (motive := fun _ => Str → Except String FormulaNode)
    (fun _ => .error "recursion fuel exhausted")
    (fun _ recur => parseExpressionBody recur) fuel

/-- `parseFunction` at a given recursion fuel. -/
def parseFunctionF (fuel : Nat) : Str → Except String FormulaNode :=
  parseFunctionBody (parseExpressionF fuel)

theorem parseExpressionF_succ (fuel : Nat) (expr : Str) :
    parseExpressionF (fuel + 1) expr = parseExpressionBody (parseExpressionF fuel) expr :=
  Eq.refl _

/-- `parse` (lines 19–29): non-formula text becomes a literal node; otherwise
strip the leading `=` and parse the remaining expression.  The fuel
`formula.length` exceeds the stripped expression's length. -/
def parse (formula : Str) : Except String FormulaNode :=
  if formula.isEmpty || formula.head? != some '=' then
    .ok (.mk .literal formula [] none none)
  else parseExpressionF formula.length (formula.drop 1)

end FormulaParser

namespace FormulaParser

/-- JavaScript truthiness of a value. -/
def jsTruthy : JSValue → Bool
  | .num q => q != 0
  | .nan => false
  | .inf _ => true
  | .str s => !s.isEmpty
  | .bool b => b
  | .null => false
  | .undef => false

/-- A JavaScript number: finite, one of the infinities, or `NaN`. -/
inductive JNum where
  | fin (q : ℚ)
  | posInf
  | negInf
  | nan
deriving DecidableEq, Repr

/-- Hexadecimal digit value. -/
def hexVal (c : Char) : Nat :=
  if isDigit09 c then c.toNat - 48
  else if 'a' ≤ c && c ≤ 'f' then c.toNat - 87
  else if 'A' ≤ c && c ≤ 'F' then c.toNat - 55
  else 0

/-- Value of a digit run in base `b`. -/
def radixToNat (b : Nat) (ds : Str) : Nat :=
  ds.foldl (fun n c => n * b + hexVal c) 0

/-- Value of the unsigned decimal form `digits [. digits] [exp]` or
`. digits [exp]`, when it consumes the whole string. -/
def decimalValue (l : Str) : Option ℚ :=
  let (ip, r1) := takeRun isDigit09 l
  let withFrac : Option (ℚ × Str) :=
    if !ip.isEmpty then
      match r1 with
      | '.' :: r' =>
        let (fp, r2) := takeRun isDigit09 r'
        some ((digitsToNat ip : ℚ) + (digitsToNat fp : ℚ) / 10 ^ fp.length, r2)
      | _ => some ((digitsToNat ip : ℚ), r1)
    else
      match l with
      | '.' :: r' =>
        let (fp, r2) := takeRun isDigit09 r'
        if fp.isEmpty then none
        else some ((digitsToNat fp : ℚ) / 10 ^ fp.length, r2)
      | _ => none
  match withFrac with
  | none => none
  | some (base, r2) =>
    match r2 with
    | c :: r3 =>
      if c = 'e' || c = 'E' then
        let (negExp, r4) := match r3 with
                            | '+' :: r' => (false, r')
                            | '-' :: r' => (true, r')
                            | _ => (false, r3)
        let (ds, r5) := takeRun isDigit09 r4
        if ds.isEmpty then none
        else if r5.isEmpty then
          some (if negExp then base / 10 ^ digitsToNat ds else base * 10 ^ digitsToNat ds)
        else none
      else none
    | [] => some base

/-- JavaScript `Number(string)`: trim, map the empty string to `0`, accept an
optionally signed decimal or `Infinity`, or an unsigned radix literal;
anything else is `NaN`. -/
def jsStringToNumber (s : Str) : JNum :=
  let t := jsTrim s
  if t.isEmpty then .fin 0
  else
    let radix : Option JNum :=
      match t with
      | '0' :: c :: r =>
        if c = 'x' || c = 'X' then
          some (if !r.isEmpty && r.all isHexDigit then .fin (radixToNat 16 r) else .nan)
        else if c = 'o' || c = 'O' then
          some (if !r.isEmpty && r.all isOctDigit then .fin (radixToNat 8 r) else .nan)
        else if c = 'b' || c = 'B' then
          some (if !r.isEmpty && r.all isBinDigit then .fin (radixToNat 2 r) else .nan)
        else none
      | _ => none
    match radix with
    | some j => j
    | none =>
      let (neg, t1) := match t with
                       | '+' :: r => (false, r)
                       | '-' :: r => (true, r)
                       | _ => (false, t)
      if t1 = chars "Infinity" then (if neg then .negInf else .posInf)
      else
        match decimalValue t1 with
        | some q => .fin (if neg then -q else q)
        | none => .nan

/-- JavaScript `ToNumber` on a `JSValue` (the coercion performed by
`Math.floor`). -/
def jsToNumber : JSValue → JNum
  | .num q => .fin q
  | .nan => .nan
  | .inf true => .posInf
  | .inf false => .negInf
  | .bool b => .fin (if b then 1 else 0)
  | .null => .fin 0
  | .undef => .nan
  | .str s => jsStringToNumber s

/-- `Math.floor`. -/
def jsFloor : JNum → JNum
  | .fin q => .fin ⌊q⌋
  | j => j

/-- `args[i]` (`undefined` beyond the end). -/
def argAt (args : List JSValue) (i : Nat) : JSValue :=
  args.getD i (.undef)

/-- Replace the element at an index, leaving the list unchanged when the
index is out of range.  (The annotation passes only ever write in-range
indices on the well-formed nodes they are invoked on; the out-of-range
JavaScript behaviour — a `TypeError` on a member access of `undefined` — is
unreachable there.) -/
def modifyAt {α : Type} : List α → Nat → (α → α) → List α
  | [], _, _ => []
  | a :: rest, 0, f => f a :: rest
  | a :: rest, i + 1, f => a :: modifyAt rest i f

/-- `children[i].isActive = b`. -/
def setActiveAt (ch : List FormulaNode) (i : Nat) (b : Bool) : List FormulaNode :=
  modifyAt ch i (·.withActive b)

/-- `evaluateLogicalBranch` (lines 245–297), as a functional update of the
node: annotate the active branch of `IF`/`IFS`/`CHOOSE`/`SWITCH` given the
evaluated argument values; any other function name leaves the node
unchanged. -/
def evaluateLogicalBranch (funcName : Str) (args : List JSValue)
    (node : FormulaNode) : FormulaNode :=
  if funcName = chars "IF" then
    if args.length ≥ 2 then
      let condition := argAt args 0
      let ch := setActiveAt node.children 1 (jsTruthy condition)
      let ch := if 2 < ch.length then setActiveAt ch 2 (!jsTruthy condition) else ch
      node.withChildren ch
    else node
  else if funcName = chars "IFS" then
    let evens := (List.range node.children.length).filter fun i => i % 2 = 0
    match evens.find? (fun i => jsTruthy (argAt args i)) with
    | some i =>
      let ch := setActiveAt node.children i true
      let ch := if i + 1 < ch.length then setActiveAt ch (i + 1) true else ch
      node.withChildren ch
    | none => node
  else if funcName = chars "CHOOSE" then
    if args.length ≥ 2 then
      match jsFloor (jsToNumber (argAt args 0)) with
      | .fin q =>
        if 1 ≤ q && q < node.children.length then
          node.withChildren (setActiveAt node.children q.num.toNat true)
        else node
      | _ => node
    else node
  else if funcName = chars "SWITCH" then
    if args.length ≥ 3 then
      let caseIdxs := (List.range args.length).filter fun i =>
        i % 2 = 1 && i + 1 < args.length
      let ch := match caseIdxs.find? (fun i => jsStrictEq (argAt args i) (argAt args 0)) with
                | some i => setActiveAt (setActiveAt node.children i true) (i + 1) true
                | none => node.children
      let ch := if args.length % 2 = 0 && !ch.isEmpty then
                  setActiveAt ch (ch.length - 1) true
                else ch
      node.withChildren ch
    else node
  else node

end FormulaParser

namespace ExcelHelper

/-- `addressToCoords` of the `ExcelHelper` class — textually identical to the
one in `calculationFlow.ts`. -/
def addressToCoords (address : Str) : Option CalculationFlowAnalyzer.Coords :=
  CalculationFlowAnalyzer.addressToCoords address

/-- `columnToNumber` of the `ExcelHelper` class (identical fold). -/
def columnToNumber (column : Str) : Nat :=
  CalculationFlowAnalyzer.columnToNumber column

/-- `numberToColumn` of the `ExcelHelper` class (identical loop). -/
def numberToColumn (num : Nat) : Str :=
  CalculationFlowAnalyzer.numberToColumn num

/-- `coordinatesToAddress` of the specification: the
`` `${numberToColumn(col)}${row}` `` pattern used by
`CalculationFlowAnalyzer.getAddress` and by `ExcelHelper.getCellAddress`. -/
def coordinatesToAddress (row col : Nat) : Str :=
  numberToColumn col ++ natToString row

end ExcelHelper

/-!
## Verification

Lemmas about the embedded definitions, followed by one theorem per claim.
-/

namespace CalculationFlowAnalyzer

theorem find?_map_setKey (m : DepMap) (k k' : Str) (v : DepInfo) (h : k' ≠ k) :
    ((m.map fun kv => if kv.1 == k then (k, v) else kv).find? fun kv => kv.1 == k') =
      m.find? fun kv => kv.1 == k' := by
  induction m with
  | nil => rfl
  | cons kv m ih =>
    by_cases hk : kv.1 = k
    · have h1 : (kv.1 == k) = true := by simp [hk]
      have h2 : ((k : Str) == k') = false := by simp [Ne.symm h]
      have h3 : (kv.1 == k') = false := by simp [hk, Ne.symm h]
      simp only [List.map_cons, List.find?_cons, h1, if_true, h2, h3, ih]
    · have h1 : (kv.1 == k) = false := by simp [hk]
      by_cases hk' : kv.1 = k'
      · have h2 : (kv.1 == k') = true := by simp [hk']
        simp only [List.map_cons, List.find?_cons, h1, Bool.false_eq_true, if_false, h2]
      · have h2 : (kv.1 == k') = false := by simp [hk']
        simp only [List.map_cons, List.find?_cons, h1, Bool.false_eq_true, if_false, h2, ih]

theorem any_eq_false_of_not {m : DepMap} {p : Str × DepInfo → Bool}
    (h : ¬ m.any p = true) : m.any p = false := by
  revert h
  cases m.any p <;> simp

theorem mapSet_cons_ne (kv : Str × DepInfo) (m : DepMap) (k : Str) (v : DepInfo)
    (h : kv.1 ≠ k) : mapSet (kv :: m) k v = kv :: mapSet m k v := by
  have h1 : (kv.1 == k) = false := by simp [h]
  by_cases ha : m.any (fun kv => kv.1 == k) = true
  · have hc : ((kv :: m).any fun kv => kv.1 == k) = true := by
      simp only [List.any_cons, ha, Bool.or_true]
    unfold mapSet
    rw [if_pos hc, if_pos ha]
    simp only [List.map_cons, h1, Bool.false_eq_true, if_false]
  · have ha' := any_eq_false_of_not ha
    have hc : ((kv :: m).any fun kv => kv.1 == k) = false := by
      simp only [List.any_cons, ha', h1, Bool.or_false]
    unfold mapSet
    rw [if_neg (by rw [hc]; exact Bool.false_ne_true), if_neg (by rw [ha']; exact Bool.false_ne_true)]
    rfl

theorem mapGet_mapSet (m : DepMap) (k k' : Str) (v : DepInfo) :
    mapGet (mapSet m k v) k' = if k' = k then some v else mapGet m k' := by
  induction m with
  | nil =>
    by_cases h : k' = k
    · simp [mapGet, mapSet, List.find?, h]
    · have h2 : ((k : Str) == k') = false := by simp [Ne.symm h]
      simp [mapGet, mapSet, List.find?, h, h2]
  | cons kv m ih =>
    by_cases hk : kv.1 = k
    · have hany : ((kv :: m).any fun kv => kv.1 == k) = true := by
        simp [List.any_cons, hk]
      have hmap : mapSet (kv :: m) k v =
          (k, v) :: (m.map fun kv => if kv.1 == k then (k, v) else kv) := by
        unfold mapSet
        rw [if_pos hany]
        simp only [List.map_cons]
        congr 1
        simp [hk]
      rw [hmap]
      by_cases h : k' = k
      · simp [mapGet, List.find?_cons, h]
      · have h2 : ((k : Str) == k') = false := by simp [Ne.symm h]
        simp only [mapGet, List.find?_cons, h2]
        rw [if_neg h]
        rw [find?_map_setKey m k k' v h]
        have h3 : (kv.1 == k') = false := by simp [hk, Ne.symm h]
        simp [mapGet, List.find?_cons, h3]
    · rw [mapSet_cons_ne kv m k v hk]
      by_cases h : k' = kv.1
      · have h1 : (kv.1 == k') = true := by simp [h.symm]
        have h2 : k' ≠ k := by rw [h]; exact hk
        simp [mapGet, List.find?_cons, h1, h2]
      · have h1 : (kv.1 == k') = false := by simp [Ne.symm h]
        simp only [mapGet, List.find?_cons, h1] at ih ⊢
        exact ih

theorem mapGet_mem {m : DepMap} {k : Str} {i : DepInfo} (h : mapGet m k = some i) :
    (k, i) ∈ m := by
  unfold mapGet at h
  match hf : m.find? fun kv => kv.1 == k with
  | none => rw [hf] at h; cases h
  | some kv =>
    rw [hf] at h
    simp only [Option.map_some'] at h
    have hmem := List.mem_of_find?_eq_some hf
    have hpred := List.find?_some hf
    have hk : kv.1 = k := by simpa using hpred
    have hkv : kv = (k, i) := by
      cases kv with
      | mk a b =>
        simp only at hk h
        have hb : b = i := by injection h
        rw [hk, hb]
    rwa [hkv] at hmem

/-- Monotone extension between dependency maps: every entry survives with the
same formula and precedents and at least its old dependents, and entries that
appear afresh have empty precedents and empty formula text. -/
def MapExtends (m m' : DepMap) : Prop :=
  (∀ k i, mapGet m k = some i → ∃ i', mapGet m' k = some i' ∧
     i'.formula = i.formula ∧ i'.precedents = i.precedents ∧
     ∀ d, d ∈ i.dependents → d ∈ i'.dependents) ∧
  (∀ k i', mapGet m k = none → mapGet m' k = some i' →
     i'.precedents = [] ∧ i'.formula = [])

theorem mapExtends_refl (m : DepMap) : MapExtends m m := by
  constructor
  · intro k i h
    exact ⟨i, h, Eq.refl _, Eq.refl _, fun d hd => hd⟩
  · intro k i' h h'
    rw [h] at h'
    cases h'

theorem mapExtends_trans {m₁ m₂ m₃ : DepMap}
    (h12 : MapExtends m₁ m₂) (h23 : MapExtends m₂ m₃) : MapExtends m₁ m₃ := by
  constructor
  · intro k i h
    obtain ⟨i2, hg2, hf2, hp2, hd2⟩ := h12.1 k i h
    obtain ⟨i3, hg3, hf3, hp3, hd3⟩ := h23.1 k i2 hg2
    exact ⟨i3, hg3, by rw [hf3, hf2], by rw [hp3, hp2], fun d hd => hd3 d (hd2 d hd)⟩
  · intro k i' h h'
    match hm2 : mapGet m₂ k with
    | none => exact h23.2 k i' hm2 h'
    | some i2 =>
      obtain ⟨hp2, hf2⟩ := h12.2 k i2 h hm2
      obtain ⟨i3, hg3, hf3, hp3, _⟩ := h23.1 k i2 hm2
      rw [hg3] at h'
      cases h'
      exact ⟨by rw [hp3, hp2], by rw [hf3, hf2]⟩

/-- The per-precedent step inside `addDependentsFor`. -/
def depStep (acc : DepMap) (address precedent : Str) : DepMap :=
  match mapGet acc precedent with
  | some info => mapSet acc precedent { info with dependents := info.dependents ++ [address] }
  | none => mapSet acc precedent ⟨[], [address], []⟩

theorem addDependentsFor_eq_foldl (m : DepMap) (address : Str) (ps : List Str) :
    addDependentsFor m address ps = ps.foldl (fun acc p => depStep acc address p) m := by
  unfold addDependentsFor depStep
  rfl

theorem depStep_extends (m : DepMap) (x p : Str) : MapExtends m (depStep m x p) := by
  rcases hg : mapGet m p with _ | info
  · simp only [depStep, hg]
    constructor
    · intro k i h
      have hk : k ≠ p := fun he => by rw [he, hg] at h; cases h
      refine ⟨i, ?_, Eq.refl _, Eq.refl _, fun d hd => hd⟩
      rw [mapGet_mapSet, if_neg hk]
      exact h
    · intro k i' h h'
      by_cases hk : k = p
      · rw [mapGet_mapSet, if_pos hk] at h'
        cases h'
        exact ⟨Eq.refl _, Eq.refl _⟩
      · rw [mapGet_mapSet, if_neg hk, h] at h'
        cases h'
  · simp only [depStep, hg]
    constructor
    · intro k i h
      by_cases hk : k = p
      · subst hk
        rw [h] at hg
        cases hg
        refine ⟨{ info with dependents := info.dependents ++ [x] }, ?_, Eq.refl _, Eq.refl _,
          fun d hd => List.mem_append_left _ hd⟩
        rw [mapGet_mapSet, if_pos (Eq.refl _)]
      · refine ⟨i, ?_, Eq.refl _, Eq.refl _, fun d hd => hd⟩
        rw [mapGet_mapSet, if_neg hk]
        exact h
    · intro k i' h h'
      by_cases hk : k = p
      · rw [hk, hg] at h
        cases h
      · rw [mapGet_mapSet, if_neg hk, h] at h'
        cases h'

theorem addDependentsFor_extends (x : Str) (ps : List Str) :
    ∀ m : DepMap, MapExtends m (addDependentsFor m x ps) := by
  induction ps with
  | nil =>
    intro m
    rw [addDependentsFor_eq_foldl]
    exact mapExtends_refl m
  | cons p rest ih =>
    intro m
    rw [addDependentsFor_eq_foldl]
    simp only [List.foldl_cons]
    rw [← addDependentsFor_eq_foldl]
    exact mapExtends_trans (depStep_extends m x p) (ih (depStep m x p))

theorem depStep_mem (m : DepMap) (x p : Str) :
    ∃ i, mapGet (depStep m x p) p = some i ∧ x ∈ i.dependents := by
  rcases hg : mapGet m p with _ | info
  · refine ⟨⟨[], [x], []⟩, ?_, ?_⟩
    · simp only [depStep, hg]
      rw [mapGet_mapSet, if_pos (Eq.refl _)]
    · simp
  · refine ⟨{ info with dependents := info.dependents ++ [x] }, ?_, ?_⟩
    · simp only [depStep, hg]
      rw [mapGet_mapSet, if_pos (Eq.refl _)]
    · simp

theorem addDependentsFor_mem (x : Str) (ps : List Str) :
    ∀ m : DepMap, ∀ p ∈ ps, ∃ i, mapGet (addDependentsFor m x ps) p = some i ∧
      x ∈ i.dependents := by
  induction ps with
  | nil =>
    intro m p hp
    cases hp
  | cons q rest ih =>
    intro m p hp
    rw [addDependentsFor_eq_foldl]
    simp only [List.foldl_cons]
    rw [← addDependentsFor_eq_foldl]
    rcases List.mem_cons.mp hp with h | h
    · subst h
      obtain ⟨i0, hg0, hx0⟩ := depStep_mem m x p
      obtain ⟨i1, hg1, _, _, hd1⟩ :=
        (addDependentsFor_extends x rest (depStep m x p)).1 p i0 hg0
      exact ⟨i1, hg1, hd1 x hx0⟩
    · exact ih (depStep m x q) p h

/-- The per-entry step of the reverse pass. -/
def bdStep (acc : DepMap) (kp : Str × List Str) : DepMap :=
  addDependentsFor acc kp.1 kp.2

theorem buildDependents_eq (m : DepMap) :
    buildDependents m = (m.map fun kv => (kv.1, kv.2.precedents)).foldl bdStep m := by
  unfold buildDependents bdStep
  rfl

theorem foldl_bdStep_extends (L : List (Str × List Str)) :
    ∀ acc : DepMap, MapExtends acc (L.foldl bdStep acc) := by
  induction L with
  | nil => intro acc; exact mapExtends_refl acc
  | cons kp rest ih =>
    intro acc
    simp only [List.foldl_cons]
    exact mapExtends_trans (addDependentsFor_extends kp.1 kp.2 acc) (ih (bdStep acc kp))

theorem foldl_bdStep_mem (L : List (Str × List Str)) :
    ∀ acc : DepMap, ∀ kp ∈ L, ∀ y ∈ kp.2,
      ∃ ey, mapGet (L.foldl bdStep acc) y = some ey ∧ kp.1 ∈ ey.dependents := by
  induction L with
  | nil =>
    intro acc kp hkp
    cases hkp
  | cons hd rest ih =>
    intro acc kp hkp y hy
    simp only [List.foldl_cons]
    rcases List.mem_cons.mp hkp with h | h
    · subst h
      obtain ⟨i0, hg0, hx0⟩ := addDependentsFor_mem kp.1 kp.2 acc y hy
      obtain ⟨i1, hg1, _, _, hd1⟩ := (foldl_bdStep_extends rest (bdStep acc kp)).1 y i0 hg0
      exact ⟨i1, hg1, hd1 kp.1 hx0⟩
    · exact ih (bdStep acc hd) kp h y hy

theorem buildDependents_extends (m : DepMap) : MapExtends m (buildDependents m) := by
  rw [buildDependents_eq]
  exact foldl_bdStep_extends _ m

theorem buildDependents_symm (m : DepMap) (x y : Str) (ex : DepInfo)
    (hx : mapGet (buildDependents m) x = some ex) (hy : y ∈ ex.precedents) :
    ∃ ey, mapGet (buildDependents m) y = some ey ∧ x ∈ ey.dependents := by
  have ext := buildDependents_extends m
  rcases h0 : mapGet m x with _ | e0
  · obtain ⟨hp, _⟩ := ext.2 x ex h0 hx
    rw [hp] at hy
    cases hy
  · obtain ⟨ex', hx', _, hp', _⟩ := ext.1 x e0 h0
    rw [hx] at hx'
    cases hx'
    rw [hp'] at hy
    have hmem : (x, e0) ∈ m := mapGet_mem h0
    have hpair : (x, e0.precedents) ∈ m.map fun kv => (kv.1, kv.2.precedents) := by
      exact List.mem_map.mpr ⟨(x, e0), hmem, Eq.refl _⟩
    have := foldl_bdStep_mem (m.map fun kv => (kv.1, kv.2.precedents)) m
      (x, e0.precedents) hpair y hy
    rw [buildDependents_eq]
    exact this

/-- Claim C1: for every supplied formula-grid input, the dependency graph
returned by `buildDependencyGraph` is symmetric — whenever `y` appears in the
precedents of `x`'s entry, `x` appears in the dependents of `y`'s entry; and
when `y` was never recorded as a scanned formula cell (it is absent from the
scanning phase's map), its entry is the one created by the reverse pass, with
empty formula text and an empty precedent list. -/
theorem buildDependencyGraph_symmetric (sheets : List SheetData) (m0 G : DepMap)
    (hscan : scanPhase sheets = .ok m0) (hG : buildDependencyGraph sheets = .ok G)
    (x y : Str) (ex : DepInfo) (hx : mapGet G x = some ex) (hy : y ∈ ex.precedents) :
    ∃ ey, mapGet G y = some ey ∧ x ∈ ey.dependents ∧
      (mapGet m0 y = none → ey.formula = [] ∧ ey.precedents = []) := by
  have hGe : G = buildDependents m0 := by
    unfold buildDependencyGraph at hG
    rw [hscan] at hG
    simp only [Except.map] at hG
    injection hG with h
    exact h.symm
  subst hGe
  obtain ⟨ey, hgy, hdy⟩ := buildDependents_symm m0 x y ex hx hy
  refine ⟨ey, hgy, hdy, fun hnone => ?_⟩
  obtain ⟨hp, hf⟩ := (buildDependents_extends m0).2 y ey hnone hgy
  exact ⟨hf, hp⟩

/-- Witness for C1 at a one-cell sheet whose formula references `B1`. -/
theorem buildDependencyGraph_symmetric_witness :
    ∃ ey, mapGet [(chars "Sheet1!A1", ⟨[chars "Sheet1!B1"], [], chars "=B1"⟩),
                  (chars "Sheet1!B1", ⟨[], [chars "Sheet1!A1"], []⟩)]
        (chars "Sheet1!B1") = some ey ∧
      chars "Sheet1!A1" ∈ ey.dependents ∧
      (mapGet [(chars "Sheet1!A1", ⟨[chars "Sheet1!B1"], [], chars "=B1"⟩)]
          (chars "Sheet1!B1") = none →
        ey.formula = [] ∧ ey.precedents = []) :=
  buildDependencyGraph_symmetric
    [⟨chars "Sheet1", chars "Sheet1!A1", [[chars "=B1"]]⟩]
    [(chars "Sheet1!A1", ⟨[chars "Sheet1!B1"], [], chars "=B1"⟩)]
    [(chars "Sheet1!A1", ⟨[chars "Sheet1!B1"], [], chars "=B1"⟩),
     (chars "Sheet1!B1", ⟨[], [chars "Sheet1!A1"], []⟩)]
    (by rfl) (by rfl)
    (chars "Sheet1!A1") (chars "Sheet1!B1")
    ⟨[chars "Sheet1!B1"], [], chars "=B1"⟩
    (by rfl) (by decide)

/-- Claim C3 (code bug): precedent keys are recorded verbatim, `$` markers
included.  On a sheet where `A1` holds the formula `=1+1` and `B1` holds
`=$A$1`, the graph keeps two distinct entries `Sheet1!A1` (the scanned cell,
with no dependents) and `Sheet1!$A$1` (a fresh reference leaf carrying the
edge from `B1`), instead of the single normalized entry `Sheet1!A1` the
specification requires. -/
theorem extractPrecedents_keeps_dollar_markers :
    extractPrecedents (chars "=$A$1") (chars "Sheet1") = [chars "Sheet1!$A$1"] ∧
    buildDependencyGraph
        [⟨chars "Sheet1", chars "Sheet1!A1:B1", [[chars "=1+1", chars "=$A$1"]]⟩] =
      .ok [(chars "Sheet1!A1", ⟨[], [], chars "=1+1"⟩),
           (chars "Sheet1!B1", ⟨[chars "Sheet1!$A$1"], [], chars "=$A$1"⟩),
           (chars "Sheet1!$A$1", ⟨[], [chars "Sheet1!B1"], []⟩)] :=
  ⟨Eq.refl _, Eq.refl _⟩

end CalculationFlowAnalyzer

namespace FormulaParser

/-- Claim C5 (code bug): in `evaluateLogicalBranch` for `SWITCH`, the default
(last) child is marked active whenever the argument count is even — even when
a case matched.  Here `SWITCH(1, 1, 2, 3)` matches its first case (children 1
and 2 are marked), yet the default child 3 is marked active as well; the
specified behaviour leaves the default unmarked after a match.  With no
matching case, only the default is marked; with an odd argument count and a
match, the default is (correctly) left alone. -/
theorem evaluateLogicalBranch_SWITCH_default_bug :
    ((evaluateLogicalBranch (chars "SWITCH") [.num 1, .num 1, .num 2, .num 3]
        (.mk .function (chars "SWITCH")
          [.mk .literal (chars "1") [] none none, .mk .literal (chars "1") [] none none,
           .mk .literal (chars "2") [] none none, .mk .literal (chars "3") [] none none]
          none none)).children.map FormulaNode.isActive
      = [none, some true, some true, some true]) ∧
    ((evaluateLogicalBranch (chars "SWITCH") [.num 9, .num 1, .num 2, .num 3]
        (.mk .function (chars "SWITCH")
          [.mk .literal (chars "9") [] none none, .mk .literal (chars "1") [] none none,
           .mk .literal (chars "2") [] none none, .mk .literal (chars "3") [] none none]
          none none)).children.map FormulaNode.isActive
      = [none, none, none, some true]) ∧
    ((evaluateLogicalBranch (chars "SWITCH") [.num 1, .num 1, .num 2]
        (.mk .function (chars "SWITCH")
          [.mk .literal (chars "1") [] none none, .mk .literal (chars "1") [] none none,
           .mk .literal (chars "2") [] none none]
          none none)).children.map FormulaNode.isActive
      = [none, some true, some true]) :=
  ⟨Eq.refl _, Eq.refl _, Eq.refl _⟩

end FormulaParser

namespace ComparisonHelper

/-- Claim C9: comparing reference-grid formula `=B1+B2` against comparator
formula `=B1+B3` in formula mode reports no difference with the
ignore-reference-only-differences option set (both normalize to `=REF+REF`)
and one difference with it unset. -/
theorem compareRanges_referenceOnly_scenario :
    normalizeFormula (chars "=B1+B2") = chars "=REF+REF" ∧
    normalizeFormula (chars "=B1+B3") = chars "=REF+REF" ∧
    (compareRanges [[chars "=B1+B2"]] [[.num 0]] [[chars "=B1+B3"]] [[.num 0]]
        ⟨true, true, false⟩).totalDifferences = 0 ∧
    (compareRanges [[chars "=B1+B2"]] [[.num 0]] [[chars "=B1+B3"]] [[.num 0]]
        ⟨true, false, false⟩).totalDifferences = 1 :=
  ⟨Eq.refl _, Eq.refl _, Eq.refl _, Eq.refl _⟩

theorem areFormulasDifferent_self (f : Str) (b : Bool) :
    areFormulasDifferent f f b = false := by
  unfold areFormulasDifferent
  cases b <;> simp

theorem areValuesDifferent_self (v : JSValue) : areValuesDifferent v v = false := by
  unfold areValuesDifferent
  cases v <;> simp [jsStrictEq, typeofNumber, numAbsDiffGtTol]

theorem cellStep_self (formulas : List (List Str)) (values : List (List JSValue))
    (options : ComparisonOptions) (st : ScanState) (row col : Nat) :
    cellStep formulas values formulas values options st row col = st := by
  unfold cellStep
  cases options.compareFormulas <;>
    simp [areFormulasDifferent_self, areValuesDifferent_self]

theorem foldl_const {α β : Type} (f : α → β → α) (h : ∀ s b, f s b = s) :
    ∀ (l : List β) (s : α), l.foldl f s = s := by
  intro l
  induction l with
  | nil => intro s; rfl
  | cons b rest ih => intro s; rw [List.foldl_cons, h s b]; exact ih s

/-- Claim C8: comparing any grid against itself yields a total difference
count of zero, under every options setting (formula mode with or without
reference normalization, and value mode). -/
theorem compareRanges_self_zero (formulas : List (List Str))
    (values : List (List JSValue)) (options : ComparisonOptions) :
    (compareRanges formulas values formulas values options).totalDifferences = 0 := by
  have key : ∀ (rows cols : List Nat) (st : ScanState),
      rows.foldl (fun st row =>
        cols.foldl (fun st2 col => cellStep formulas values formulas values options st2 row col) st) st = st := by
    intro rows cols st
    refine foldl_const _ (fun s b => ?_) rows st
    exact foldl_const _ (fun s2 c => cellStep_self formulas values options s2 b c) cols s
  unfold compareRanges
  dsimp only
  rw [key]

/-- The two cell lists of a difference block stay aligned: equal length and
pairwise equal addresses. -/
def blockOk (b : DifferenceBlock) : Prop :=
  b.referenceCells.length = b.comparatorCells.length ∧
  b.referenceCells.map CellDifference.address = b.comparatorCells.map CellDifference.address

/-- The scan-state invariant behind C10. -/
def stateOk (st : ScanState) : Prop :=
  (∀ b ∈ st.differences, blockOk b) ∧
  (∀ b, st.currentBlock = some b → blockOk b) ∧
  st.totalDifferences =
    (st.differences.map fun b => b.referenceCells.length).sum +
    (match st.currentBlock with
     | some b => b.referenceCells.length
     | none => 0)

theorem cellStep_stateOk (refF compF : List (List Str))
    (refV compV : List (List JSValue)) (options : ComparisonOptions)
    (st : ScanState) (row col : Nat) (h : stateOk st) :
    stateOk (cellStep refF refV compF compV options st row col) := by
  obtain ⟨hdiff, hcur, htot⟩ := h
  unfold cellStep
  dsimp only
  generalize (if options.compareFormulas = true then
      areFormulasDifferent (formulaAt refF row col) (formulaAt compF row col) options.ignoreInputs
    else areValuesDifferent (valueAt refV row col) (valueAt compV row col)) = d
  cases d
  · simp only [Bool.false_eq_true, if_false]
    exact ⟨hdiff, hcur, htot⟩
  · simp only [if_pos]
    rcases hc : st.currentBlock with _ | b
    · dsimp only
      refine ⟨fun b' hb' => hdiff b' hb', ?_, ?_⟩
      · intro b' hb'
        have hb2 : some (⟨row, col, max row row, max col col,
            [] ++ [⟨getAddress row col, formulaAt refF row col, valueAt refV row col, true⟩],
            [] ++ [⟨getAddress row col, formulaAt compF row col, valueAt compV row col, true⟩]⟩ :
            DifferenceBlock) = some b' := hb'
        injection hb2 with hb2
        subst hb2
        exact ⟨by simp, by simp⟩
      · show st.totalDifferences + 1 =
          (st.differences.map fun b => b.referenceCells.length).sum +
          ([] ++ [(⟨getAddress row col, formulaAt refF row col, valueAt refV row col, true⟩ :
            CellDifference)]).length
        rw [htot, hc]
        simp
    · dsimp only
      by_cases hadj : isAdjacent b row col = true
      · rw [if_pos hadj]
        dsimp only
        refine ⟨fun b' hb' => hdiff b' hb', ?_, ?_⟩
        · intro b' hb'
          have hb2 : some ({ b with
              endRow := max b.endRow row, endCol := max b.endCol col,
              referenceCells := b.referenceCells ++
                [⟨getAddress row col, formulaAt refF row col, valueAt refV row col, true⟩],
              comparatorCells := b.comparatorCells ++
                [⟨getAddress row col, formulaAt compF row col, valueAt compV row col, true⟩] } :
              DifferenceBlock) = some b' := hb'
          injection hb2 with hb2
          subst hb2
          obtain ⟨hl, ha⟩ := hcur b hc
          exact ⟨by simp [hl], by simp [ha]⟩
        · show st.totalDifferences + 1 =
            (st.differences.map fun b => b.referenceCells.length).sum +
            (b.referenceCells ++
              [(⟨getAddress row col, formulaAt refF row col, valueAt refV row col, true⟩ :
                CellDifference)]).length
          rw [htot, hc]
          simp [Nat.add_assoc]
      · rw [if_neg hadj]
        dsimp only
        refine ⟨?_, ?_, ?_⟩
        · intro b' hb'
          have hb2 : b' ∈ st.differences ++ [b] := hb'
          rcases List.mem_append.mp hb2 with hmem | hmem
          · exact hdiff b' hmem
          · rw [List.mem_singleton.mp hmem]
            exact hcur b hc
        · intro b' hb'
          have hb2 : some (⟨row, col, max row row, max col col,
              [] ++ [⟨getAddress row col, formulaAt refF row col, valueAt refV row col, true⟩],
              [] ++ [⟨getAddress row col, formulaAt compF row col, valueAt compV row col, true⟩]⟩ :
              DifferenceBlock) = some b' := hb'
          injection hb2 with hb2
          subst hb2
          exact ⟨by simp, by simp⟩
        · show st.totalDifferences + 1 =
            ((st.differences ++ [b]).map fun b => b.referenceCells.length).sum +
            ([] ++ [(⟨getAddress row col, formulaAt refF row col, valueAt refV row col, true⟩ :
              CellDifference)]).length
          rw [htot, hc]
          simp [Nat.add_comm]

theorem foldl_preserves {α β : Type} (P : α → Prop) (f : α → β → α)
    (h : ∀ s b, P s → P (f s b)) :
    ∀ (l : List β) (s : α), P s → P (l.foldl f s) := by
  intro l
  induction l with
  | nil => intro s hs; exact hs
  | cons b rest ih => intro s hs; exact ih (f s b) (h s b hs)

theorem flush_ok (final : ScanState) (h : stateOk final) :
    (∀ b ∈ (match final.currentBlock with
            | some b => final.differences ++ [b]
            | none => final.differences), blockOk b) ∧
    final.totalDifferences =
      ((match final.currentBlock with
        | some b => final.differences ++ [b]
        | none => final.differences).map fun (b : DifferenceBlock) => b.referenceCells.length).sum := by
  obtain ⟨hdiff, hcur, htot⟩ := h
  rcases hc : final.currentBlock with _ | b
  · simp only [hc]
    refine ⟨hdiff, ?_⟩
    rw [htot, hc]
    simp
  · simp only [hc]
    constructor
    · intro b' hb'
      rcases List.mem_append.mp hb' with hmem | hmem
      · exact hdiff b' hmem
      · rw [List.mem_singleton.mp hmem]
        exact hcur b hc
    · rw [htot, hc]
      simp

/-- Claim C10: in every `compareRanges` result, each block's reference and
comparator cell sequences have equal length and pairwise equal addresses, and
the reported total difference count is the sum over all blocks of the length
of the block's reference-cell sequence. -/
theorem compareRanges_blocks_aligned (refF : List (List Str))
    (refV : List (List JSValue)) (compF : List (List Str))
    (compV : List (List JSValue)) (options : ComparisonOptions) :
    (∀ b ∈ (compareRanges refF refV compF compV options).differences,
       b.referenceCells.length = b.comparatorCells.length ∧
       b.referenceCells.map CellDifference.address =
         b.comparatorCells.map CellDifference.address) ∧
    (compareRanges refF refV compF compV options).totalDifferences =
      ((compareRanges refF refV compF compV options).differences.map
        fun b => b.referenceCells.length).sum := by
  have hinit : stateOk ⟨[], none, 0⟩ := by
    refine ⟨?_, ?_, ?_⟩
    · intro b hb; cases hb
    · intro b hb; cases hb
    · rfl
  have hfold : stateOk ((List.range (max refF.length compF.length)).foldl
      (fun st row => (List.range (max ((refF.head?.map List.length).getD 0)
          ((compF.head?.map List.length).getD 0))).foldl
        (fun st2 col => cellStep refF refV compF compV options st2 row col) st)
      ⟨[], none, 0⟩) := by
    refine foldl_preserves stateOk _ ?_ _ _ hinit
    intro s b hs
    exact foldl_preserves stateOk _
      (fun s2 c hs2 => cellStep_stateOk refF compF refV compV options s2 b c hs2) _ s hs
  exact flush_ok _ hfold

/-- Witness for C10 at a single differing cell. -/
theorem compareRanges_blocks_aligned_witness :
    ((DifferenceBlock.mk 0 0 0 0 [⟨chars "A1", chars "a", .num 1, true⟩]
        [⟨chars "A1", chars "b", .num 1, true⟩]).referenceCells.length =
      (DifferenceBlock.mk 0 0 0 0 [⟨chars "A1", chars "a", .num 1, true⟩]
        [⟨chars "A1", chars "b", .num 1, true⟩]).comparatorCells.length ∧
     (DifferenceBlock.mk 0 0 0 0 [⟨chars "A1", chars "a", .num 1, true⟩]
        [⟨chars "A1", chars "b", .num 1, true⟩]).referenceCells.map CellDifference.address =
      (DifferenceBlock.mk 0 0 0 0 [⟨chars "A1", chars "a", .num 1, true⟩]
        [⟨chars "A1", chars "b", .num 1, true⟩]).comparatorCells.map CellDifference.address) ∧
    (compareRanges [[chars "a"]] [[.num 1]] [[chars "b"]] [[.num 1]]
        ⟨true, false, false⟩).totalDifferences =
      ((compareRanges [[chars "a"]] [[.num 1]] [[chars "b"]] [[.num 1]]
          ⟨true, false, false⟩).differences.map fun b => b.referenceCells.length).sum := by
  have h := compareRanges_blocks_aligned [[chars "a"]] [[.num 1]] [[chars "b"]] [[.num 1]]
    ⟨true, false, false⟩
  exact ⟨h.1 _ (by decide), h.2⟩

end ComparisonHelper

namespace CalculationFlowAnalyzer

/-- The classification decision for one formula-bearing entry: `some k` with
`k` = 0 (input), 1 (calculation), 2 (output), 3 (orphan) according to the
emptiness of the in-scope formula-bearing precedents and dependents; `none`
when a scope test throws. -/
def entryClass (deps : DepMap) (scope : AnalysisScope) (info : DepInfo) : Option Nat := do
  let inScopePrecedents ← filterInScopeFormula deps scope info.precedents
  let inScopeDependents ← filterInScopeFormula deps scope info.dependents
  some (if inScopePrecedents.isEmpty && inScopeDependents.isEmpty then 3
        else if inScopePrecedents.isEmpty then 0
        else if inScopeDependents.isEmpty then 2
        else 1)

/-- The predicate deciding membership of an entry in class `j`. -/
def classPick (deps : DepMap) (scope : AnalysisScope) (j : Nat) (e : Str × DepInfo) :
    Option Str :=
  if !e.2.formula.isEmpty && (entryClass deps scope e.2 == some j) then some e.1 else none

theorem bool_eq_false {b : Bool} (h : ¬ b = true) : b = false := by
  revert h
  cases b <;> simp

theorem classifyEntries_cons_skip (deps : DepMap) (scope : AnalysisScope)
    (addr : Str) (info : DepInfo) (rest : List (Str × DepInfo))
    (hf : info.formula.isEmpty = true) :
    classifyEntries deps scope ((addr, info) :: rest) = classifyEntries deps scope rest := by
  conv_lhs => unfold classifyEntries
  rw [hf]
  rfl

theorem classifyEntries_cons_formula (deps : DepMap) (scope : AnalysisScope)
    (addr : Str) (info : DepInfo) (rest : List (Str × DepInfo))
    (P D ins' cals' outs' orns' : List Str)
    (hf : info.formula.isEmpty = false)
    (hP : filterInScopeFormula deps scope info.precedents = some P)
    (hD : filterInScopeFormula deps scope info.dependents = some D)
    (hrec : classifyEntries deps scope rest = some (ins', cals', outs', orns')) :
    classifyEntries deps scope ((addr, info) :: rest) =
      (if (P.isEmpty && D.isEmpty) = true then some (ins', cals', outs', addr :: orns')
       else if (P.isEmpty && !D.isEmpty) = true then some (addr :: ins', cals', outs', orns')
       else if (!P.isEmpty && D.isEmpty) = true then some (ins', cals', addr :: outs', orns')
       else some (ins', addr :: cals', outs', orns')) := by
  conv_lhs => unfold classifyEntries
  rw [hf, hP, hD, hrec]
  simp only [Bool.not_not]
  rfl

theorem classifyEntries_eq (deps : DepMap) (scope : AnalysisScope) :
    ∀ (l : List (Str × DepInfo)) (ins cals outs orns : List Str),
      classifyEntries deps scope l = some (ins, cals, outs, orns) →
      ins = l.filterMap (classPick deps scope 0) ∧
      cals = l.filterMap (classPick deps scope 1) ∧
      outs = l.filterMap (classPick deps scope 2) ∧
      orns = l.filterMap (classPick deps scope 3) := by
  intro l
  induction l with
  | nil =>
    intro ins cals outs orns h
    simp only [classifyEntries] at h
    injection h with h
    simp only [Prod.mk.injEq] at h
    obtain ⟨e1, e2, e3, e4⟩ := h
    exact ⟨e1.symm, e2.symm, e3.symm, e4.symm⟩
  | cons e rest ih =>
    intro ins cals outs orns h
    obtain ⟨addr, info⟩ := e
    by_cases hf : info.formula.isEmpty = true
    · rw [classifyEntries_cons_skip deps scope addr info rest hf] at h
      obtain ⟨h1, h2, h3, h4⟩ := ih ins cals outs orns h
      have hhead : ∀ j, classPick deps scope j (addr, info) = none := by
        intro j
        simp [classPick, hf]
      simp only [List.filterMap_cons, hhead]
      exact ⟨h1, h2, h3, h4⟩
    · have hf' : info.formula.isEmpty = false := bool_eq_false hf
      rcases hP : filterInScopeFormula deps scope info.precedents with _ | P
      · conv_lhs at h => unfold classifyEntries
        rw [hf', hP] at h
        cases h
      rcases hD : filterInScopeFormula deps scope info.dependents with _ | D
      · conv_lhs at h => unfold classifyEntries
        rw [hf', hP, hD] at h
        cases h
      rcases hrec : classifyEntries deps scope rest with _ | res4
      · conv_lhs at h => unfold classifyEntries
        rw [hf', hP, hD, hrec] at h
        cases h
      obtain ⟨ins', cals', outs', orns'⟩ := res4
      rw [classifyEntries_cons_formula deps scope addr info rest P D ins' cals' outs' orns'
        hf' hP hD hrec] at h
      obtain ⟨h1, h2, h3, h4⟩ := ih ins' cals' outs' orns' hrec
      by_cases hPe : P.isEmpty = true <;> by_cases hDe : D.isEmpty = true
      · have hp : P = [] := List.isEmpty_iff.mp hPe
        have hd : D = [] := List.isEmpty_iff.mp hDe
        have hclass : entryClass deps scope info = some 3 := by
          simp [entryClass, hP, hD, hp, hd]
        simp only [hPe, hDe, Bool.and_self, if_pos] at h
        injection h with h
        simp only [Prod.mk.injEq] at h
        obtain ⟨e1, e2, e3, e4⟩ := h
        subst e1; subst e2; subst e3
        rw [← e4]
        simp only [List.filterMap_cons, classPick, hf', hclass]
        refine ⟨by simp [h1], by simp [h2], by simp [h3], by simp [h4]⟩
      · have hDe' : D.isEmpty = false := bool_eq_false hDe
        have hp : P = [] := List.isEmpty_iff.mp hPe
        have hd : D ≠ [] := by
          intro hcon
          rw [hcon] at hDe'
          cases hDe'
        have hclass : entryClass deps scope info = some 0 := by
          simp [entryClass, hP, hD, hp, hd]
        simp only [hPe, hDe', Bool.and_false, Bool.not_false, Bool.and_true,
          Bool.false_eq_true, if_false, if_pos] at h
        injection h with h
        simp only [Prod.mk.injEq] at h
        obtain ⟨e1, e2, e3, e4⟩ := h
        subst e2; subst e3; subst e4
        rw [← e1]
        simp only [List.filterMap_cons, classPick, hf', hclass]
        refine ⟨by simp [h1], by simp [h2], by simp [h3], by simp [h4]⟩
      · have hPe' : P.isEmpty = false := bool_eq_false hPe
        have hp : P ≠ [] := by
          intro hcon
          rw [hcon] at hPe'
          cases hPe'
        have hd : D = [] := List.isEmpty_iff.mp hDe
        have hclass : entryClass deps scope info = some 2 := by
          simp [entryClass, hP, hD, hp, hd]
        simp only [hPe', hDe, Bool.false_and, Bool.not_false, Bool.true_and, Bool.and_true,
          Bool.false_eq_true, if_false, if_pos] at h
        injection h with h
        simp only [Prod.mk.injEq] at h
        obtain ⟨e1, e2, e3, e4⟩ := h
        subst e1; subst e2; subst e4
        rw [← e3]
        simp only [List.filterMap_cons, classPick, hf', hclass]
        refine ⟨by simp [h1], by simp [h2], by simp [h3], by simp [h4]⟩
      · have hPe' : P.isEmpty = false := bool_eq_false hPe
        have hDe' : D.isEmpty = false := bool_eq_false hDe
        have hp : P ≠ [] := by
          intro hcon
          rw [hcon] at hPe'
          cases hPe'
        have hd : D ≠ [] := by
          intro hcon
          rw [hcon] at hDe'
          cases hDe'
        have hclass : entryClass deps scope info = some 1 := by
          simp [entryClass, hP, hD, hp, hd]
        simp only [hPe', hDe', Bool.false_and, Bool.and_false,
          Bool.false_eq_true, if_false] at h
        injection h with h
        simp only [Prod.mk.injEq] at h
        obtain ⟨e1, e2, e3, e4⟩ := h
        subst e1; subst e3; subst e4
        rw [← e2]
        simp only [List.filterMap_cons, classPick, hf', hclass]
        refine ⟨by simp [h1], by simp [h2], by simp [h3], by simp [h4]⟩

theorem mem_mapGet_of_nodup :
    ∀ (deps : DepMap), (deps.map Prod.fst).Nodup →
      ∀ (a : Str) (i : DepInfo), (a, i) ∈ deps → mapGet deps a = some i := by
  intro deps
  induction deps with
  | nil =>
    intro _ a i h
    cases h
  | cons kv rest ih =>
    intro hnd a i hmem
    rw [List.map_cons, List.nodup_cons] at hnd
    rcases List.mem_cons.mp hmem with h | h
    · rw [← h]
      simp [mapGet, List.find?_cons]
    · have ha : (kv.1 == a) = false := by
        have hne : kv.1 ≠ a := by
          intro he
          exact hnd.1 (he ▸ List.mem_map.mpr ⟨(a, i), h, Eq.refl _⟩)
        simp [hne]
      have := ih hnd.2 a i h
      unfold mapGet at this ⊢
      rw [List.find?_cons]
      simp only [ha]
      exact this

theorem mem_iff_mapGet {deps : DepMap} (hnd : (deps.map Prod.fst).Nodup) (a : Str)
    (i : DepInfo) : (a, i) ∈ deps ↔ mapGet deps a = some i :=
  ⟨mem_mapGet_of_nodup deps hnd a i, mapGet_mem⟩

theorem classifyEntries_ok_filters (deps : DepMap) (scope : AnalysisScope) :
    ∀ (l : List (Str × DepInfo)) res, classifyEntries deps scope l = some res →
      ∀ a i, (a, i) ∈ l → i.formula.isEmpty = false →
        ∃ P D, filterInScopeFormula deps scope i.precedents = some P ∧
          filterInScopeFormula deps scope i.dependents = some D := by
  intro l
  induction l with
  | nil =>
    intro res _ a i hmem
    cases hmem
  | cons e rest ih =>
    intro res h a i hmem hfne
    obtain ⟨addr, info⟩ := e
    by_cases hf : info.formula.isEmpty = true
    · rw [classifyEntries_cons_skip deps scope addr info rest hf] at h
      rcases List.mem_cons.mp hmem with hh | hh
      · have : i = info := congrArg Prod.snd hh
        rw [this, hf] at hfne
        cases hfne
      · exact ih res h a i hh hfne
    · have hf' : info.formula.isEmpty = false := bool_eq_false hf
      rcases hP : filterInScopeFormula deps scope info.precedents with _ | P
      · conv_lhs at h => unfold classifyEntries
        rw [hf', hP] at h
        cases h
      rcases hD : filterInScopeFormula deps scope info.dependents with _ | D
      · conv_lhs at h => unfold classifyEntries
        rw [hf', hP, hD] at h
        cases h
      rcases hrec : classifyEntries deps scope rest with _ | res4
      · conv_lhs at h => unfold classifyEntries
        rw [hf', hP, hD, hrec] at h
        cases h
      rcases List.mem_cons.mp hmem with hh | hh
      · have : i = info := congrArg Prod.snd hh
        rw [this]
        exact ⟨P, D, hP, hD⟩
      · exact ih res4 hrec a i hh hfne

/-- The index computed by the classification rule from the two filtered
lists. -/
def classIndex (P D : List Str) : Nat :=
  if P.isEmpty && D.isEmpty then 3
  else if P.isEmpty then 0
  else if D.isEmpty then 2
  else 1

theorem classIndex_zero_iff (P D : List Str) :
    classIndex P D = 0 ↔ P = [] ∧ D ≠ [] := by
  by_cases hp : P = [] <;> by_cases hd : D = [] <;>
    simp [classIndex, hp, hd, List.isEmpty_iff]

theorem classIndex_one_iff (P D : List Str) :
    classIndex P D = 1 ↔ P ≠ [] ∧ D ≠ [] := by
  by_cases hp : P = [] <;> by_cases hd : D = [] <;>
    simp [classIndex, hp, hd, List.isEmpty_iff]

theorem classIndex_two_iff (P D : List Str) :
    classIndex P D = 2 ↔ P ≠ [] ∧ D = [] := by
  by_cases hp : P = [] <;> by_cases hd : D = [] <;>
    simp [classIndex, hp, hd, List.isEmpty_iff]

theorem classIndex_three_iff (P D : List Str) :
    classIndex P D = 3 ↔ P = [] ∧ D = [] := by
  by_cases hp : P = [] <;> by_cases hd : D = [] <;>
    simp [classIndex, hp, hd, List.isEmpty_iff]

theorem entryClass_eq_some_iff (deps : DepMap) (scope : AnalysisScope)
    (info : DepInfo) (j : Nat) :
    entryClass deps scope info = some j ↔ ∃ P D,
      filterInScopeFormula deps scope info.precedents = some P ∧
      filterInScopeFormula deps scope info.dependents = some D ∧
      classIndex P D = j := by
  rcases hP : filterInScopeFormula deps scope info.precedents with _ | P
  · simp [entryClass, hP]
  rcases hD : filterInScopeFormula deps scope info.dependents with _ | D
  · simp [entryClass, hP, hD]
  · simp [entryClass, hP, hD, classIndex]

theorem group_mem_iff (deps : DepMap) (scope : AnalysisScope)
    (hnd : (deps.map Prod.fst).Nodup) (j : Nat) (a : Str) :
    a ∈ deps.filterMap (classPick deps scope j) ↔
      ∃ i P D, mapGet deps a = some i ∧ i.formula ≠ [] ∧
        filterInScopeFormula deps scope i.precedents = some P ∧
        filterInScopeFormula deps scope i.dependents = some D ∧
        classIndex P D = j := by
  rw [List.mem_filterMap]
  constructor
  · rintro ⟨⟨k, i⟩, hmem, hpick⟩
    simp only [classPick] at hpick
    by_cases hc : (!i.formula.isEmpty && (entryClass deps scope i == some j)) = true
    · rw [if_pos hc] at hpick
      injection hpick with hpick
      subst hpick
      obtain ⟨hc1, hc2⟩ := Bool.and_eq_true_iff.mp hc
      have hfne : i.formula ≠ [] := by
        intro he
        rw [he] at hc1
        cases hc1
      have hcl : entryClass deps scope i = some j := by
        exact beq_iff_eq.mp hc2
      obtain ⟨P, D, hP, hD, hidx⟩ := (entryClass_eq_some_iff deps scope i j).mp hcl
      exact ⟨i, P, D, mem_mapGet_of_nodup deps hnd k i hmem, hfne, hP, hD, hidx⟩
    · rw [if_neg hc] at hpick
      cases hpick
  · rintro ⟨i, P, D, hg, hfne, hP, hD, hidx⟩
    refine ⟨(a, i), mapGet_mem hg, ?_⟩
    have hc1 : (!i.formula.isEmpty) = true := by
      simp [List.isEmpty_iff, hfne]
    have hcl : entryClass deps scope i = some j :=
      (entryClass_eq_some_iff deps scope i j).mpr ⟨P, D, hP, hD, hidx⟩
    simp [classPick, hc1, hcl]

/-- All addresses in a list of cell groups. -/
def cellsOf (gs : List CellGroup) : List Str :=
  (gs.map CellGroup.cells).flatten

theorem group_mem_disjoint (deps : DepMap) (scope : AnalysisScope)
    (hnd : (deps.map Prod.fst).Nodup) (j k : Nat) (hjk : j ≠ k) (a : Str) :
    ¬(a ∈ deps.filterMap (classPick deps scope j) ∧
      a ∈ deps.filterMap (classPick deps scope k)) := by
  rintro ⟨h1, h2⟩
  obtain ⟨i, P, D, hg, _, hP, hD, hi⟩ := (group_mem_iff deps scope hnd j a).mp h1
  obtain ⟨i2, P2, D2, hg2, _, hP2, hD2, hi2⟩ := (group_mem_iff deps scope hnd k a).mp h2
  rw [hg] at hg2
  injection hg2 with he
  subst he
  rw [hP] at hP2
  injection hP2 with heP
  subst heP
  rw [hD] at hD2
  injection hD2 with heD
  subst heD
  rw [hi] at hi2
  exact hjk hi2

/-- Claim C2: for a dependency graph with unique keys whose formula-bearing
entries all lie in the scope (as any graph built for that scope does), a
successful `analyzeInputsOutputs` run places each formula-bearing address
into exactly one of inputs/calculations/outputs/orphans according to the
P/D rule — with P the in-scope formula-bearing precedents and D the in-scope
formula-bearing dependents, the address is an input iff P is empty and D is
not, a calculation iff both are non-empty, an output iff P is non-empty and
D is empty, and an orphan iff both are empty — and the four groups cover all
in-scope formula-bearing addresses with no overlaps and no omissions. -/
theorem analyzeInputsOutputs_partition (deps : DepMap) (scope : AnalysisScope)
    (colors : FlowColors) (r : FlowAnalysisResult)
    (hr : analyzeInputsOutputs deps scope colors = some r)
    (hnd : (deps.map Prod.fst).Nodup)
    (hsc : ∀ a i, mapGet deps a = some i → i.formula ≠ [] →
      isInScope a scope = some true) (a : Str) :
    (a ∈ cellsOf r.inputs ↔ ∃ i P D, mapGet deps a = some i ∧ i.formula ≠ [] ∧
      filterInScopeFormula deps scope i.precedents = some P ∧
      filterInScopeFormula deps scope i.dependents = some D ∧ (P = [] ∧ D ≠ [])) ∧
    (a ∈ cellsOf r.calculations ↔ ∃ i P D, mapGet deps a = some i ∧ i.formula ≠ [] ∧
      filterInScopeFormula deps scope i.precedents = some P ∧
      filterInScopeFormula deps scope i.dependents = some D ∧ (P ≠ [] ∧ D ≠ [])) ∧
    (a ∈ cellsOf r.outputs ↔ ∃ i P D, mapGet deps a = some i ∧ i.formula ≠ [] ∧
      filterInScopeFormula deps scope i.precedents = some P ∧
      filterInScopeFormula deps scope i.dependents = some D ∧ (P ≠ [] ∧ D = [])) ∧
    (a ∈ cellsOf r.orphans ↔ ∃ i P D, mapGet deps a = some i ∧ i.formula ≠ [] ∧
      filterInScopeFormula deps scope i.precedents = some P ∧
      filterInScopeFormula deps scope i.dependents = some D ∧ (P = [] ∧ D = [])) ∧
    ((∃ i, mapGet deps a = some i ∧ i.formula ≠ [] ∧ isInScope a scope = some true) ↔
      (a ∈ cellsOf r.inputs ∨ a ∈ cellsOf r.calculations ∨
       a ∈ cellsOf r.outputs ∨ a ∈ cellsOf r.orphans)) ∧
    (¬(a ∈ cellsOf r.inputs ∧ a ∈ cellsOf r.calculations) ∧
     ¬(a ∈ cellsOf r.inputs ∧ a ∈ cellsOf r.outputs) ∧
     ¬(a ∈ cellsOf r.inputs ∧ a ∈ cellsOf r.orphans) ∧
     ¬(a ∈ cellsOf r.calculations ∧ a ∈ cellsOf r.outputs) ∧
     ¬(a ∈ cellsOf r.calculations ∧ a ∈ cellsOf r.orphans) ∧
     ¬(a ∈ cellsOf r.outputs ∧ a ∈ cellsOf r.orphans)) := by
  unfold analyzeInputsOutputs at hr
  rcases hcl : classifyEntries deps scope deps with _ | q
  · rw [hcl] at hr
    cases hr
  obtain ⟨ins, cals, outs, orns⟩ := q
  rw [hcl] at hr
  simp only [Option.map_some'] at hr
  injection hr with hr
  subst hr
  obtain ⟨hins, hcals, houts, horns⟩ :=
    classifyEntries_eq deps scope deps ins cals outs orns hcl
  have hI : cellsOf ([⟨ins, chars "Inputs", colors.inputs⟩] : List CellGroup) = ins := by
    simp [cellsOf]
  have hC : cellsOf ([⟨cals, chars "Calculations", colors.calculations⟩] : List CellGroup) = cals := by
    simp [cellsOf]
  have hO : cellsOf ([⟨outs, chars "Outputs", colors.outputs⟩] : List CellGroup) = outs := by
    simp [cellsOf]
  have hR : cellsOf ([⟨orns, chars "Orphan Formulas", colors.orphans⟩] : List CellGroup) = orns := by
    simp [cellsOf]
  have g0 := group_mem_iff deps scope hnd 0 a
  have g1 := group_mem_iff deps scope hnd 1 a
  have g2 := group_mem_iff deps scope hnd 2 a
  have g3 := group_mem_iff deps scope hnd 3 a
  refine ⟨?_, ?_, ?_, ?_, ?_, ?_, ?_, ?_, ?_, ?_, ?_⟩
  · rw [hI, hins]
    simpa only [classIndex_zero_iff] using g0
  · rw [hC, hcals]
    simpa only [classIndex_one_iff] using g1
  · rw [hO, houts]
    simpa only [classIndex_two_iff] using g2
  · rw [hR, horns]
    simpa only [classIndex_three_iff] using g3
  · constructor
    · rintro ⟨i, hg, hfne, _⟩
      have hfE : i.formula.isEmpty = false := by
        simp [List.isEmpty_iff, hfne]
      obtain ⟨P, D, hP, hD⟩ := classifyEntries_ok_filters deps scope deps
        (ins, cals, outs, orns) hcl a i (mapGet_mem hg) hfE
      by_cases hp : P = [] <;> by_cases hd : D = []
      · refine Or.inr (Or.inr (Or.inr ?_))
        rw [hR, horns]
        exact g3.mpr ⟨i, P, D, hg, hfne, hP, hD, (classIndex_three_iff P D).mpr ⟨hp, hd⟩⟩
      · refine Or.inl ?_
        rw [hI, hins]
        exact g0.mpr ⟨i, P, D, hg, hfne, hP, hD, (classIndex_zero_iff P D).mpr ⟨hp, hd⟩⟩
      · refine Or.inr (Or.inr (Or.inl ?_))
        rw [hO, houts]
        exact g2.mpr ⟨i, P, D, hg, hfne, hP, hD, (classIndex_two_iff P D).mpr ⟨hp, hd⟩⟩
      · refine Or.inr (Or.inl ?_)
        rw [hC, hcals]
        exact g1.mpr ⟨i, P, D, hg, hfne, hP, hD, (classIndex_one_iff P D).mpr ⟨hp, hd⟩⟩
    · intro h
      have key : ∀ j, a ∈ deps.filterMap (classPick deps scope j) →
          ∃ i, mapGet deps a = some i ∧ i.formula ≠ [] ∧ isInScope a scope = some true := by
        intro j hj
        obtain ⟨i, P, D, hg, hfne, _, _, _⟩ := (group_mem_iff deps scope hnd j a).mp hj
        exact ⟨i, hg, hfne, hsc a i hg hfne⟩
      rcases h with h | h | h | h
      · rw [hI, hins] at h
        exact key 0 h
      · rw [hC, hcals] at h
        exact key 1 h
      · rw [hO, houts] at h
        exact key 2 h
      · rw [hR, horns] at h
        exact key 3 h
  · rw [hI, hins, hC, hcals]
    exact group_mem_disjoint deps scope hnd 0 1 (by omega) a
  · rw [hI, hins, hO, houts]
    exact group_mem_disjoint deps scope hnd 0 2 (by omega) a
  · rw [hI, hins, hR, horns]
    exact group_mem_disjoint deps scope hnd 0 3 (by omega) a
  · rw [hC, hcals, hO, houts]
    exact group_mem_disjoint deps scope hnd 1 2 (by omega) a
  · rw [hC, hcals, hR, horns]
    exact group_mem_disjoint deps scope hnd 1 3 (by omega) a
  · rw [hO, houts, hR, horns]
    exact group_mem_disjoint deps scope hnd 2 3 (by omega) a

/-- The three-cell example graph of the specification: `A1` a plain value
referenced by `A2`, `A2 = A1 * 2`, `A3 = A2 + 1`, analysed over worksheet
`S`. -/
def c2Deps : DepMap :=
  [(chars "S!A2", ⟨[chars "S!A1"], [chars "S!A3"], chars "=A1*2"⟩),
   (chars "S!A3", ⟨[chars "S!A2"], [], chars "=A2+1"⟩),
   (chars "S!A1", ⟨[], [chars "S!A2"], []⟩)]

/-- The worksheet scope of the example. -/
def c2Scope : AnalysisScope := ⟨.worksheet, some (chars "S"), none⟩

/-- The classification result of the example. -/
def c2Result : FlowAnalysisResult :=
  ⟨[⟨[chars "S!A2"], chars "Inputs", defaultColors.inputs⟩],
   [⟨[], chars "Calculations", defaultColors.calculations⟩],
   [⟨[chars "S!A3"], chars "Outputs", defaultColors.outputs⟩],
   [⟨[], chars "Orphan Formulas", defaultColors.orphans⟩]⟩

/-- Witness for C2: in the example, `A2` (whose only precedent carries no
formula and whose dependent `A3` does) is classified as an input. -/
theorem analyzeInputsOutputs_partition_witness :
    chars "S!A2" ∈ cellsOf c2Result.inputs := by
  have hsc : ∀ a i, mapGet c2Deps a = some i → i.formula ≠ [] →
      isInScope a c2Scope = some true := by
    intro a i hg hf
    have hm := mapGet_mem hg
    simp only [c2Deps, List.mem_cons, List.not_mem_nil, or_false] at hm
    rcases hm with h | h | h <;>
      (rw [Prod.mk.injEq] at h; rw [h.1]; decide)
  have h := analyzeInputsOutputs_partition c2Deps c2Scope defaultColors c2Result
    (by rfl) (by decide) hsc (chars "S!A2")
  exact h.1.mpr ⟨⟨[chars "S!A1"], [chars "S!A3"], chars "=A1*2"⟩, [], [chars "S!A3"],
    by rfl, by decide, by rfl, by rfl, by decide⟩

end CalculationFlowAnalyzer

namespace CalculationFlowAnalyzer

theorem numberToColumnAux_zero : ∀ f, numberToColumnAux f 0 = [] := by
  intro f
  cases f <;> simp [numberToColumnAux]

theorem numberToColumnAux_irrel :
    ∀ n f₁ f₂, n ≤ f₁ → n ≤ f₂ → numberToColumnAux f₁ n = numberToColumnAux f₂ n := by
  intro n
  induction n using Nat.strong_induction_on with
  | _ n ih =>
    intro f₁ f₂ h₁ h₂
    rcases n with _ | k
    · rw [numberToColumnAux_zero, numberToColumnAux_zero]
    · obtain ⟨a, rfl⟩ : ∃ a, f₁ = a + 1 := ⟨f₁ - 1, by omega⟩
      obtain ⟨b, rfl⟩ : ∃ b, f₂ = b + 1 := ⟨f₂ - 1, by omega⟩
      have e₁ : numberToColumnAux (a + 1) (k + 1) =
          numberToColumnAux a (k / 26) ++ [Char.ofNat (65 + k % 26)] := by
        simp [numberToColumnAux]
      have e₂ : numberToColumnAux (b + 1) (k + 1) =
          numberToColumnAux b (k / 26) ++ [Char.ofNat (65 + k % 26)] := by
        simp [numberToColumnAux]
      rw [e₁, e₂, ih (k / 26) (by omega) a b (by omega) (by omega)]

theorem numberToColumn_step (N d : Nat) (h1 : 1 ≤ d) (h2 : d ≤ 26) :
    numberToColumn (N * 26 + d) = numberToColumn N ++ [Char.ofNat (64 + d)] := by
  obtain ⟨m, hm⟩ : ∃ m, N * 26 + d = m + 1 := ⟨N * 26 + d - 1, by omega⟩
  unfold numberToColumn
  rw [hm]
  have e : numberToColumnAux (m + 1) (m + 1) =
      numberToColumnAux m (m / 26) ++ [Char.ofNat (65 + m % 26)] := by
    simp [numberToColumnAux]
  have hdiv : m / 26 = N := by omega
  have hmod : 65 + m % 26 = 64 + d := by omega
  rw [e, hdiv, hmod, numberToColumnAux_irrel N m N (by omega) (by omega)]

theorem isUpperAZ_toNat {c : Char} (h : isUpperAZ c = true) :
    65 ≤ c.toNat ∧ c.toNat ≤ 90 := by
  obtain ⟨h1, h2⟩ := Bool.and_eq_true_iff.mp h
  have h1' : 'A' ≤ c := of_decide_eq_true h1
  have h2' : c ≤ 'Z' := of_decide_eq_true h2
  rw [Char.le_def] at h1' h2'
  exact ⟨h1', h2'⟩

theorem isDigit09_toNat {c : Char} (h : isDigit09 c = true) :
    48 ≤ c.toNat ∧ c.toNat ≤ 57 := by
  obtain ⟨h1, h2⟩ := Bool.and_eq_true_iff.mp h
  have h1' : '0' ≤ c := of_decide_eq_true h1
  have h2' : c ≤ '9' := of_decide_eq_true h2
  rw [Char.le_def] at h1' h2'
  exact ⟨h1', h2'⟩

theorem numberToColumn_foldl (L : Str) :
    ∀ N, (∀ c ∈ L, isUpperAZ c = true) →
      numberToColumn (L.foldl (fun num c => num * 26 + (c.toNat - 64)) N) =
        numberToColumn N ++ L := by
  induction L with
  | nil =>
    intro N _
    simp
  | cons c L ih =>
    intro N hall
    obtain ⟨hc1, hc2⟩ := isUpperAZ_toNat (hall c (List.mem_cons_self c L))
    rw [List.foldl_cons,
      ih (N * 26 + (c.toNat - 64)) (fun x hx => hall x (List.mem_cons_of_mem c hx)),
      numberToColumn_step N (c.toNat - 64) (by omega) (by omega)]
    have hch : Char.ofNat (64 + (c.toNat - 64)) = c := by
      have he : 64 + (c.toNat - 64) = c.toNat := by omega
      rw [he, Char.ofNat_toNat]
    rw [hch, List.append_assoc]
    rfl

/-- The base-26 inverse: `numberToColumn` undoes `columnToNumber` on
non-empty uppercase column names. -/
theorem numberToColumn_columnToNumber (L : Str) (h : ∀ c ∈ L, isUpperAZ c = true) :
    numberToColumn (columnToNumber L) = L := by
  have := numberToColumn_foldl L 0 h
  unfold columnToNumber
  rw [this]
  rfl

end CalculationFlowAnalyzer

theorem natToStringAux_irrel :
    ∀ n f₁ f₂, n < f₁ → n < f₂ → natToStringAux f₁ n = natToStringAux f₂ n := by
  intro n
  induction n using Nat.strong_induction_on with
  | _ n ih =>
    intro f₁ f₂ h₁ h₂
    obtain ⟨a, rfl⟩ : ∃ a, f₁ = a + 1 := ⟨f₁ - 1, by omega⟩
    obtain ⟨b, rfl⟩ : ∃ b, f₂ = b + 1 := ⟨f₂ - 1, by omega⟩
    by_cases hn : n < 10
    · simp [natToStringAux, hn]
    · have e₁ : natToStringAux (a + 1) n =
          natToStringAux a (n / 10) ++ [Char.ofNat (48 + n % 10)] := by
        simp [natToStringAux, hn]
      have e₂ : natToStringAux (b + 1) n =
          natToStringAux b (n / 10) ++ [Char.ofNat (48 + n % 10)] := by
        simp [natToStringAux, hn]
      rw [e₁, e₂, ih (n / 10) (by omega) a b (by omega) (by omega)]

theorem natToString_step (N d : Nat) (hN : 1 ≤ N) (hd : d ≤ 9) :
    natToString (N * 10 + d) = natToString N ++ [Char.ofNat (48 + d)] := by
  unfold natToString
  have hge : ¬ N * 10 + d < 10 := by omega
  have e : natToStringAux (N * 10 + d + 1) (N * 10 + d) =
      natToStringAux (N * 10 + d) ((N * 10 + d) / 10) ++
        [Char.ofNat (48 + (N * 10 + d) % 10)] := by
    simp [natToStringAux, hge]
  have hdiv : (N * 10 + d) / 10 = N := by omega
  have hmod : (N * 10 + d) % 10 = d := by omega
  rw [e, hdiv, hmod, natToStringAux_irrel N (N * 10 + d) (N + 1) (by omega) (by omega)]

theorem natToString_foldl (D : Str) :
    ∀ N, 1 ≤ N → (∀ c ∈ D, isDigit09 c = true) →
      natToString (D.foldl (fun n c => n * 10 + (c.toNat - 48)) N) =
        natToString N ++ D := by
  induction D with
  | nil =>
    intro N _ _
    simp
  | cons c D ih =>
    intro N hN hall
    obtain ⟨hc1, hc2⟩ := CalculationFlowAnalyzer.isDigit09_toNat (hall c (List.mem_cons_self c D))
    rw [List.foldl_cons,
      ih (N * 10 + (c.toNat - 48)) (by omega) (fun x hx => hall x (List.mem_cons_of_mem c hx)),
      natToString_step N (c.toNat - 48) hN (by omega)]
    have hch : Char.ofNat (48 + (c.toNat - 48)) = c := by
      have he : 48 + (c.toNat - 48) = c.toNat := by omega
      rw [he, Char.ofNat_toNat]
    rw [hch, List.append_assoc]
    rfl

/-- The base-10 inverse: rendering `parseInt`'s value recovers a digit
string with no leading zero. -/
theorem natToString_digitsToNat (c0 : Char) (D : Str) (hc : isDigit09 c0 = true)
    (hz : c0 ≠ '0') (hD : ∀ c ∈ D, isDigit09 c = true) :
    natToString (digitsToNat (c0 :: D)) = c0 :: D := by
  obtain ⟨hc1, hc2⟩ := CalculationFlowAnalyzer.isDigit09_toNat hc
  have hne : c0.toNat ≠ 48 := by
    intro he
    apply hz
    have := Char.ofNat_toNat c0
    rw [he] at this
    exact this.symm
  unfold digitsToNat
  rw [List.foldl_cons]
  have hbase : (0 : Nat) * 10 + (c0.toNat - 48) = c0.toNat - 48 := by omega
  rw [hbase, natToString_foldl D (c0.toNat - 48) (by omega) hD]
  have hd0 : natToString (c0.toNat - 48) = [c0] := by
    unfold natToString
    have hlt : c0.toNat - 48 < 10 := by omega
    simp only [natToStringAux, hlt, if_pos]
    have he : 48 + (c0.toNat - 48) = c0.toNat := by omega
    rw [he, Char.ofNat_toNat]
  rw [hd0]
  rfl

namespace CalculationFlowAnalyzer

theorem isUpperAZ_isLetterAZi {c : Char} (h : isUpperAZ c = true) :
    isLetterAZi c = true := by
  unfold isLetterAZi
  unfold isUpperAZ at h
  rw [h]
  rfl

theorem isDigit09_not_isLetterAZi {c : Char} (h : isDigit09 c = true) :
    isLetterAZi c = false := by
  obtain ⟨h1, h2⟩ := isDigit09_toNat h
  cases hb : isLetterAZi c
  · rfl
  · exfalso
    unfold isLetterAZi at hb
    rcases Bool.or_eq_true_iff.mp hb with h' | h'
    · obtain ⟨ha, _⟩ := Bool.and_eq_true_iff.mp h'
      have hA : 'A' ≤ c := of_decide_eq_true ha
      rw [Char.le_def] at hA
      have hA' : 65 ≤ c.toNat := hA
      omega
    · obtain ⟨ha, _⟩ := Bool.and_eq_true_iff.mp h'
      have hA : 'a' ≤ c := of_decide_eq_true ha
      rw [Char.le_def] at hA
      have hA' : 97 ≤ c.toNat := hA
      omega

theorem takeRun_append (p : Char → Bool) (L D : Str)
    (hD : ∀ c, D.head? = some c → p c = false) :
    (∀ c ∈ L, p c = true) → takeRun p (L ++ D) = (L, D) := by
  unfold takeRun
  induction L with
  | nil =>
    intro _
    simp only [List.nil_append]
    cases D with
    | nil => rfl
    | cons d D2 =>
      have hd := hD d rfl
      simp [List.takeWhile_cons, List.dropWhile_cons, hd]
  | cons c L2 ih =>
    intro hall
    have hc := hall c (List.mem_cons_self c L2)
    have hpair := ih (fun x hx => hall x (List.mem_cons_of_mem c hx))
    rw [Prod.mk.injEq] at hpair
    simp only [List.cons_append, List.takeWhile_cons, List.dropWhile_cons, hc,
      if_pos, Prod.mk.injEq]
    exact ⟨by rw [hpair.1], hpair.2⟩

theorem lettersDigitsSearch_cons_notLetter {c : Char} {rest : Str}
    (hc : isLetterAZi c = false) :
    lettersDigitsSearch (c :: rest) = lettersDigitsSearch rest := by
  conv_lhs => unfold lettersDigitsSearch
  simp [takeRun, List.takeWhile_cons, hc, Option.orElse]

theorem lettersDigitsSearch_exact (L D : Str) (hL : L ≠ [])
    (hLu : ∀ c ∈ L, isUpperAZ c = true) (hD : D ≠ [])
    (hDd : ∀ c ∈ D, isDigit09 c = true) :
    lettersDigitsSearch (L ++ D) = some (L, D) := by
  obtain ⟨c, L2, rfl⟩ := List.exists_cons_of_ne_nil hL
  obtain ⟨d, D2, rfl⟩ := List.exists_cons_of_ne_nil hD
  have hdl : isLetterAZi d = false :=
    isDigit09_not_isLetterAZi (hDd d (List.mem_cons_self d D2))
  have htr : takeRun isLetterAZi (c :: (L2 ++ (d :: D2))) = (c :: L2, d :: D2) := by
    have := takeRun_append isLetterAZi (c :: L2) (d :: D2)
      (fun x hx => by
        rw [List.head?_cons] at hx
        rw [(Option.some.inj hx).symm]
        exact hdl)
      (fun x hx => isUpperAZ_isLetterAZi (hLu x hx))
    simpa using this
  have htr2 : takeRun isDigit09 (d :: D2) = (d :: D2, []) := by
    have := takeRun_append isDigit09 (d :: D2) []
      (fun x hx => Option.noConfusion hx) hDd
    simpa using this
  show lettersDigitsSearch (c :: (L2 ++ (d :: D2))) = some (c :: L2, d :: D2)
  conv_lhs => unfold lettersDigitsSearch
  rw [htr]
  simp [htr2, Option.orElse]

end CalculationFlowAnalyzer

namespace ExcelHelper

/-- C6 (amended): a well-formed address — an optional leading `$`, one or
more uppercase column letters, then one or more row digits with no leading
zero — converts to (row, col) coordinates and back to the address with the
`$` marker stripped, and the column conversion is base-26 with no zero digit
(1→A, 26→Z, 27→AA).  A `$` between the letters and the digits (as in
`$A$1`) instead makes `addressToCoords` throw: the `([A-Z]+)(\d+)` search
finds no letters-then-digits run there. -/
theorem addressToCoords_roundTrip
    (dollar : Bool) (L D : Str) (hL : L ≠ [])
    (hLu : ∀ c ∈ L, isUpperAZ c = true)
    (hD : D ≠ []) (hDd : ∀ c ∈ D, isDigit09 c = true)
    (hz : D.head? ≠ some '0') :
    addressToCoords ((if dollar then ['$'] else []) ++ (L ++ D)) =
        some ⟨digitsToNat D, columnToNumber L⟩ ∧
      CalculationFlowAnalyzer.getAddress (digitsToNat D) (columnToNumber L) = L ++ D ∧
      numberToColumn 1 = chars "A" ∧ numberToColumn 26 = chars "Z" ∧
      numberToColumn 27 = chars "AA" := by
  have hsearch := CalculationFlowAnalyzer.lettersDigitsSearch_exact L D hL hLu hD hDd
  refine ⟨?_, ?_, rfl, rfl, rfl⟩
  · cases dollar
    · show addressToCoords (L ++ D) = _
      unfold addressToCoords CalculationFlowAnalyzer.addressToCoords
      rw [hsearch]
      rfl
    · show addressToCoords ('$' :: (L ++ D)) = _
      unfold addressToCoords CalculationFlowAnalyzer.addressToCoords
      rw [CalculationFlowAnalyzer.lettersDigitsSearch_cons_notLetter (by decide), hsearch]
      rfl
  · unfold CalculationFlowAnalyzer.getAddress columnToNumber
    rw [CalculationFlowAnalyzer.numberToColumn_columnToNumber L hLu]
    obtain ⟨d, D2, rfl⟩ := List.exists_cons_of_ne_nil hD
    have hd0 : d ≠ '0' := fun he => hz (by rw [List.head?_cons, he])
    rw [natToString_digitsToNat d D2 (hDd d (List.mem_cons_self d D2)) hd0
      (fun x hx => hDd x (List.mem_cons_of_mem d hx))]

/-- C6 counterexample: `$A$1` does not convert to row 1, column 1 — the
`$` between the column letter and the row digit leaves the
`([A-Z]+)(\d+)` search without a match, so `addressToCoords` throws
(modelled as `none`). -/
theorem addressToCoords_dollarRow_counterexample :
    addressToCoords (chars "$A$1") = none := by rfl

theorem addressToCoords_roundTrip_witness :
    addressToCoords (chars "$AB12") = some ⟨12, 28⟩ ∧
      CalculationFlowAnalyzer.getAddress 12 28 = chars "AB12" := by
  have h := addressToCoords_roundTrip true (chars "AB") (chars "12")
    (by decide) (by decide) (by decide) (by decide) (by decide)
  exact ⟨h.1, h.2.1⟩

end ExcelHelper

namespace FormulaParser

/-- The five precedence tiers as the specification words them, lowest first:
comparison, concatenation, additive, multiplicative, power. -/
def specTiers : List (List Str) :=
  [[chars "=", chars "<>", chars "<=", chars ">=", chars "<", chars ">"],
   [chars "&"], [chars "+", chars "-"], [chars "*", chars "/"], [chars "^"]]

/-- The rightmost top-level occurrence among all of a tier's operators
together (top level in the code's own sense, via `scanOp`); on a tie the
operator listed first in the tier wins. -/
def tierRightmost (expr : Str) (tier : List Str) : Option (Str × Nat) :=
  tier.foldl (fun best op =>
    match scanOp expr op, best with
    | some i, some (bop, bi) => if bi < i then some (op, i) else some (bop, bi)
    | some i, none => some (op, i)
    | none, b => b) none

/-- The operator-selection rule as the specification words it — the lowest
tier present, and within it the rightmost top-level occurrence considering
all of the tier's operators together.  Modelled from the spec, for
comparison with `findTopLevelOperator`. -/
def specTierOperator (expr : Str) : Option (Str × Nat) :=
  specTiers.findSome? fun tier => tierRightmost expr tier

theorem findSome?_eq_some_split {α β : Type} (l : List α) (f : α → Option β) (b : β)
    (h : l.findSome? f = some b) :
    ∃ pre x post, l = pre ++ x :: post ∧ (∀ y ∈ pre, f y = none) ∧ f x = some b := by
  induction l with
  | nil => simp [List.findSome?] at h
  | cons a l ih =>
    rw [List.findSome?_cons] at h
    cases hf : f a with
    | some v =>
      rw [hf] at h
      exact ⟨[], a, l, rfl, by simp, by rw [hf]; exact h⟩
    | none =>
      rw [hf] at h
      obtain ⟨pre, x, post, he, hpre, hx⟩ := ih h
      refine ⟨a :: pre, x, post, by rw [he]; rfl, ?_, hx⟩
      intro y hy
      rcases List.mem_cons.mp hy with hy1 | hy2
      · rw [hy1]; exact hf
      · exact hpre y hy2

theorem parseExpressionBody_op (recur : Str → Except String FormulaNode)
    (expr op : Str) (i : Nat)
    (hfn : funcMatchHead (jsTrim expr) = none)
    (href : isCellReference (jsTrim expr) = false)
    (hlit : isLiteral (jsTrim expr) = false)
    (hop : findTopLevelOperator (jsTrim expr) = some (op, i)) :
    parseExpressionBody recur expr =
      (match recur ((jsTrim expr).take i) with
       | .error e => .error e
       | .ok lhs =>
         match recur ((jsTrim expr).drop (i + op.length)) with
         | .error e => .error e
         | .ok rhs => .ok (.mk .operator op [lhs, rhs] none none)) := by
  simp only [parseExpressionBody, hfn, href, hlit, hop, Option.isSome_none,
    Bool.false_eq_true, if_false]

/-- C4 counterexample: on `1=2<3` the parser splits at `=` (index 1), the
first operator of `precedenceOrder` whose scan hits, even though the
rightmost top-level occurrence among the comparison tier's operators taken
together is `<` at index 3. -/
theorem findTopLevelOperator_not_tier_rightmost :
    findTopLevelOperator (chars "1=2<3") = some (chars "=", 1) ∧
      specTierOperator (chars "1=2<3") = some (chars "<", 3) := ⟨rfl, rfl⟩

/-- C4 (amended): when none of the function/reference/literal cases applies
and `findTopLevelOperator` reports `(op, i)`, `parseExpression` splits the
trimmed expression at index `i` into children `take i` and
`drop (i + op.length)` under an operator node labelled `op`; the reported
operator is the first of the fixed source order `=, <>, <=, >=, <, >, &, +,
-, *, /, ^` whose own full right-to-left top-level scan hits (every earlier
operator's scan misses), at the index its own scan reports — not the
rightmost occurrence of the lowest tier with all of the tier's operators
considered together. -/
theorem parseExpression_splits_first_scan_hit
    (fuel : Nat) (expr op : Str) (i : Nat)
    (hfn : funcMatchHead (jsTrim expr) = none)
    (href : isCellReference (jsTrim expr) = false)
    (hlit : isLiteral (jsTrim expr) = false)
    (hop : findTopLevelOperator (jsTrim expr) = some (op, i)) :
    parseExpressionF (fuel + 1) expr =
        (match parseExpressionF fuel ((jsTrim expr).take i) with
         | .error e => .error e
         | .ok lhs =>
           match parseExpressionF fuel ((jsTrim expr).drop (i + op.length)) with
           | .error e => .error e
           | .ok rhs => .ok (.mk .operator op [lhs, rhs] none none)) ∧
      scanOp (jsTrim expr) op = some i ∧
      ∃ pre post, precedenceOrder = pre ++ op :: post ∧
        ∀ op2 ∈ pre, scanOp (jsTrim expr) op2 = none := by
  have hop2 := hop
  unfold findTopLevelOperator at hop2
  obtain ⟨pre, x, post, he, hpre, hx⟩ := findSome?_eq_some_split _ _ _ hop2
  obtain ⟨j, hj, heq⟩ := Option.map_eq_some'.mp hx
  have hx1 : x = op := congrArg Prod.fst heq
  have hj1 : j = i := congrArg Prod.snd heq
  refine ⟨parseExpressionBody_op (parseExpressionF fuel) expr op i hfn href hlit hop,
    ?_, pre, post, ?_, ?_⟩
  · rw [hx1, hj1] at hj
    exact hj
  · rw [← hx1]
    exact he
  · intro op2 hmem
    exact Option.map_eq_none'.mp (hpre op2 hmem)

theorem parseExpression_splits_first_scan_hit_witness :
    parseExpressionF 4 (chars "1+2") =
        (match parseExpressionF 3 (chars "1") with
         | .error e => .error e
         | .ok lhs =>
           match parseExpressionF 3 (chars "2") with
           | .error e => .error e
           | .ok rhs => .ok (.mk .operator (chars "+") [lhs, rhs] none none)) ∧
      scanOp (chars "1+2") (chars "+") = some 1 ∧
      ∃ pre post, precedenceOrder = pre ++ (chars "+") :: post ∧
        ∀ op2 ∈ pre, scanOp (chars "1+2") op2 = none := by
  have h := parseExpression_splits_first_scan_hit 3 (chars "1+2") (chars "+") 1
    rfl rfl rfl rfl
  exact h

end FormulaParser

namespace FormulaParser

theorem length_dropWhile_le (p : Char → Bool) (l : Str) :
    (l.dropWhile p).length ≤ l.length := by
  induction l with
  | nil => simp
  | cons c r ih =>
    rw [List.dropWhile_cons]
    split
    · exact le_trans ih (Nat.le_succ _)
    · exact le_refl _

theorem jsTrim_length_le (l : Str) : (jsTrim l).length ≤ l.length := by
  unfold jsTrim
  calc ((l.dropWhile isJsSpace).reverse.dropWhile isJsSpace).reverse.length
      = ((l.dropWhile isJsSpace).reverse.dropWhile isJsSpace).length := List.length_reverse _
    _ ≤ (l.dropWhile isJsSpace).reverse.length := length_dropWhile_le _ _
    _ = (l.dropWhile isJsSpace).length := List.length_reverse _
    _ ≤ l.length := length_dropWhile_le _ _

theorem funcMatchHead_length_lt {l name after : Str}
    (h : funcMatchHead l = some (name, after)) : after.length < l.length := by
  cases l with
  | nil => exact Option.noConfusion h
  | cons c r =>
    simp only [funcMatchHead, takeRun] at h
    by_cases hs : isIdentStart c = true
    · rw [if_pos hs] at h
      cases hr2 : (r.dropWhile isIdentChar).dropWhile isJsSpace with
      | nil => rw [hr2] at h; exact Option.noConfusion h
      | cons p r3 =>
        rw [hr2] at h
        have h1 : ((r.dropWhile isIdentChar).dropWhile isJsSpace).length ≤ r.length :=
          le_trans (length_dropWhile_le _ _) (length_dropWhile_le _ _)
        rw [hr2] at h1
        simp only [List.length_cons] at h1
        by_cases hp : p = '('
        · subst hp
          have he : r3 = after := congrArg Prod.snd (Option.some.inj h)
          rw [← he]
          simp only [List.length_cons]
          omega
        · exfalso
          cases p with
          | mk v hv =>
            revert h
            split
            · rename_i heq
              intro h
              exact hp (List.head_eq_of_cons_eq heq.symm).symm
            · exact fun h => Option.noConfusion h
    · rw [if_neg hs] at h
      exact Option.noConfusion h

end FormulaParser

namespace FormulaParser

theorem matchingParenInside_length_le :
    ∀ (l : Str) (depth : Int) (ins : Bool) (sc : Option Char) (prev : Char),
      (matchingParenInside l depth ins sc prev).length ≤ l.length := by
  intro l
  induction l with
  | nil =>
    intro _ _ _ _
    simp [matchingParenInside]
  | cons c rest ih =>
    intro depth ins sc prev
    unfold matchingParenInside
    repeat' split
    all_goals simp only [List.length_cons, List.length_nil]
    all_goals try exact Nat.zero_le _
    all_goals exact Nat.succ_le_succ (ih _ _ _ _)

theorem splitArgumentsAux_mem_length :
    ∀ (l cur : Str) (depth : Int) (ins : Bool) (sc prev : Option Char),
      ∀ a ∈ splitArgumentsAux l cur depth ins sc prev, a.length ≤ cur.length + l.length := by
  intro l
  induction l with
  | nil =>
    intro cur depth ins sc prev a ha
    unfold splitArgumentsAux at ha
    split at ha
    · exact absurd ha (List.not_mem_nil a)
    · rw [List.mem_singleton] at ha
      subst ha
      have := jsTrim_length_le cur
      simp only [List.length_nil]
      omega
  | cons c rest ih =>
    intro cur depth ins sc prev a ha
    unfold splitArgumentsAux at ha
    have hlen : ∀ b : Char, (cur ++ [b]).length + rest.length = cur.length + (c :: rest).length := by
      intro b
      simp [List.length_append]
      omega
    repeat' split at ha
    all_goals try (have hb := ih _ _ _ _ _ a ha; rw [hlen] at hb; exact hb)
    · rcases List.mem_cons.mp ha with rfl | ha2
      · have := jsTrim_length_le cur
        simp only [List.length_cons]
        omega
      · have hb := ih _ _ _ _ _ a ha2
        simp only [List.length_nil, Nat.zero_add, List.length_cons] at hb ⊢
        omega

theorem splitArguments_mem_length (s a : Str) (ha : a ∈ splitArguments s) :
    a.length ≤ s.length := by
  have := splitArgumentsAux_mem_length s [] 0 false none none a ha
  simpa using this

end FormulaParser

namespace FormulaParser

theorem scanOpStep_fst_cases (expr op : Str) (i : Nat) (s : Bool) (c : Option Char)
    (d : Int) :
    (scanOpStep expr op i s c d).1 = none ∨ (scanOpStep expr op i s c d).1 = some i ∨
      (scanOpStep expr op i s c d).1 = some (i - 1) := by
  unfold scanOpStep
  dsimp only
  repeat' split
  all_goals simp

theorem scanOpStep_fst_le (expr op : Str) (i : Nat) (s : Bool) (c : Option Char) (d : Int)
    (r : Nat) (h : (scanOpStep expr op i s c d).1 = some r) : r ≤ i := by
  rcases scanOpStep_fst_cases expr op i s c d with hc | hc | hc
  · rw [hc] at h
    exact Option.noConfusion h
  · rw [hc] at h
    have := Option.some.inj h
    omega
  · rw [hc] at h
    have := Option.some.inj h
    omega

theorem scanOpAux_le (expr op : Str) :
    ∀ (k : Nat) (s : Bool) (c : Option Char) (d : Int) (i : Nat),
      scanOpAux expr op k s c d = some i → i ≤ k := by
  intro k
  induction k with
  | zero =>
    intro s c d i h
    unfold scanOpAux at h
    exact scanOpStep_fst_le expr op 0 s c d i h
  | succ k ih =>
    intro s c d i h
    unfold scanOpAux at h
    rcases hstep : scanOpStep expr op (k + 1) s c d with ⟨f, s2, c2, d2⟩
    rw [hstep] at h
    cases f with
    | some r =>
      have hr : r = i := Option.some.inj h
      have : (scanOpStep expr op (k + 1) s c d).1 = some r := by rw [hstep]
      have := scanOpStep_fst_le expr op (k + 1) s c d r this
      omega
    | none =>
      exact le_trans (ih s2 c2 d2 i h) (Nat.le_succ k)

theorem scanOp_lt (expr op : Str) (i : Nat) (h : scanOp expr op = some i) :
    i < expr.length := by
  unfold scanOp at h
  cases hl : expr.length with
  | zero => rw [hl] at h; exact Option.noConfusion h
  | succ n =>
    rw [hl] at h
    have := scanOpAux_le expr op n false none 0 i h
    omega

theorem mapM_ok {α β : Type} (f : α → Except String β) :
    ∀ (l : List α), (∀ a ∈ l, ∃ b, f a = .ok b) → ∃ bs, l.mapM f = .ok bs := by
  intro l
  induction l with
  | nil => exact fun _ => ⟨[], rfl⟩
  | cons a l ih =>
    intro hall
    obtain ⟨b, hb⟩ := hall a (List.mem_cons_self a l)
    obtain ⟨bs, hbs⟩ := ih (fun x hx => hall x (List.mem_cons_of_mem a hx))
    refine ⟨b :: bs, ?_⟩
    rw [List.mapM_cons, hb, hbs]
    rfl

end FormulaParser

namespace FormulaParser

theorem precedenceOrder_nonempty : ∀ op ∈ precedenceOrder, 1 ≤ op.length := by
  decide

theorem findTopLevelOperator_bounds {t op : Str} {i : Nat}
    (h : findTopLevelOperator t = some (op, i)) :
    i < t.length ∧ 1 ≤ op.length := by
  unfold findTopLevelOperator at h
  obtain ⟨pre, x, post, he, hpre, hx⟩ := findSome?_eq_some_split _ _ _ h
  obtain ⟨j, hj, heq⟩ := Option.map_eq_some'.mp hx
  have hx1 : x = op := congrArg Prod.fst heq
  have hj1 : j = i := congrArg Prod.snd heq
  rw [hx1, hj1] at hj
  refine ⟨scanOp_lt t op i hj, ?_⟩
  apply precedenceOrder_nonempty
  rw [he, ← hx1]
  exact List.mem_append_right pre (List.mem_cons_self x post)

theorem parseExpressionF_total :
    ∀ (fuel : Nat) (e : Str), e.length < fuel → ∃ n, parseExpressionF fuel e = .ok n := by
  intro fuel
  induction fuel with
  | zero =>
    intro e he
    exact absurd he (Nat.not_lt_zero _)
  | succ f ih =>
    intro e he
    rw [parseExpressionF_succ]
    have ht : (jsTrim e).length ≤ e.length := jsTrim_length_le e
    unfold parseExpressionBody
    dsimp only
    split
    · rename_i hfn
      rw [Option.isSome_iff_exists] at hfn
      obtain ⟨⟨name, after⟩, hmatch⟩ := hfn
      unfold parseFunctionBody
      rw [hmatch]
      have hafter := funcMatchHead_length_lt hmatch
      have hargs : ∀ a ∈ splitArguments (matchingParenInside after 1 false none '('),
          a.length < f := by
        intro a ha
        have h1 := splitArguments_mem_length _ a ha
        have h2 := matchingParenInside_length_le after 1 false none '('
        omega
      obtain ⟨bs, hbs⟩ := mapM_ok (parseExpressionF f) _ (fun a ha => ih a (hargs a ha))
      dsimp only
      rw [hbs]
      exact ⟨_, rfl⟩
    · split
      · exact ⟨_, rfl⟩
      · split
        · exact ⟨_, rfl⟩
        · split
          · rename_i op i heq
            obtain ⟨hi, hol⟩ := findTopLevelOperator_bounds heq
            obtain ⟨lhs, hlhs⟩ := ih ((jsTrim e).take i) (by
              have := List.length_take_le i (jsTrim e)
              omega)
            obtain ⟨rhs, hrhs⟩ := ih ((jsTrim e).drop (i + op.length)) (by
              rw [List.length_drop]
              omega)
            rw [hlhs, hrhs]
            exact ⟨_, rfl⟩
          · exact ⟨_, rfl⟩

/-- C7 (amended): `parse` never throws — every input string yields a tree. -/
theorem parse_total (s : Str) : ∃ node, parse s = .ok node := by
  unfold parse
  split
  · exact ⟨_, rfl⟩
  · rename_i hcond
    apply parseExpressionF_total
    have hs : s ≠ [] := by
      intro he
      subst he
      simp at hcond
    have h1 : 1 ≤ s.length := List.length_pos.mpr hs
    rw [List.length_drop]
    omega

end FormulaParser

namespace FormulaParser

/-- C7 counterexample: with the closing parenthesis missing,
`=SUM(A1,B2` does not become a single literal node — `findMatchingParen`
falls back to the string length, so the unterminated remainder `A1,B2` is
split on commas and parsed as ordinary function arguments, yielding a
function node with two reference children. -/
theorem parse_unclosed_function_counterexample :
    parse (chars "=SUM(A1,B2") =
      .ok (.mk .function (chars "SUM")
        [.mk .reference (chars "A1") [] (some (chars "A1")) none,
         .mk .reference (chars "B2") [] (some (chars "B2")) none] none none) := rfl

end FormulaParser
